import Mathlib

/-!
Verification of the SacredFlow Square integration.

This file gives a shallow embedding of the Square webhook intake pipeline
(`app/routes/square.py`, `app/core/square.py`) and of the catalog
reconciliation service (`app/services/square_catalog.py`), and proves the
behavioural properties stated for them.

Modelling conventions:
* Python dicts holding webhook/catalog payloads become structures whose
  fields are `Option`-valued where the corresponding `dict.get` may miss.
  A field read through Python truthiness (`or`, `if not x`) is handled by
  explicit helpers (`truthyStr`, `Option.getD`), mirroring that the empty
  string and `None` are both falsy.
* The database session becomes an explicit state value (lists of rows);
  one call to a route handler is a pure function from state to
  (response, state).  `commit` is the returned state (plus, for the
  catalog sync, an explicit Bool recording whether a commit happened).
* `base64(HMAC-SHA1(key, message))` from the Python standard library is
  an abstract parameter `hm : String -> String -> String`; the code under
  verification only builds the message and compares the digests, so
  every theorem is stated for an arbitrary `hm`.
* `datetime.now()` is an abstract tick `now : Nat` supplied by the caller.
-/

/-! ### Payment model (`app/models/payments.py`) -/

namespace Payment

def STATUS_PENDING : String := "pending"

def STATUS_COMPLETED : String := "completed"

def STATUS_FAILED : String := "failed"

def STATUS_REFUNDED : String := "refunded"

end Payment

/-- Payment-shaped sub-dictionary of a webhook payload: the fields read by
`_apply_payment_update` (`payload.get("id")`, `payload.get("status")`). -/
structure PaymentPayload where
  pid : Option String
  pstatus : Option String
deriving DecidableEq, Repr

/-- A `payments` table row, restricted to the columns the webhook pipeline
reads or writes. `webhook_history` and `square_response` model the
`extra_data` JSON blob entries maintained by `_apply_payment_update`. -/
structure PaymentRec where
  square_payment_id : Option String
  pstatus : String
  webhook_history : List (Nat × PaymentPayload)
  square_response : Option PaymentPayload
deriving DecidableEq, Repr

/-! ### Webhook payload and event-row model (`app/models/webhook.py`) -/

/-- The `data` member of a Square webhook payload: `location_id`, and the
`data.object` resource.  `object_payment` is `some p` exactly when
`data.object` carries a *truthy* `"payment"` entry `p`; `object_self`
carries the payment-shaped fields of `data.object` itself (used by the
`resource.get("payment") or resource` fallback). -/
structure WebhookData where
  location_id : Option String
  object_payment : Option PaymentPayload
  object_self : PaymentPayload
deriving DecidableEq, Repr

/-- A parsed webhook JSON body, restricted to the keys the route reads.
`data` is `none` when the `"data"` key is missing or falsy. -/
structure WebhookPayload where
  event_id : Option String
  eventId : Option String
  etype : Option String
  data : Option WebhookData
deriving DecidableEq, Repr

/-- A `square_webhook_events` row, restricted to the columns the route
writes. -/
structure EventRec where
  event_id : String
  event_type : String
  location_id : Option String
  signature_verified : Bool
  payload : WebhookPayload
  estatus : String
  failure_reason : Option String
  processed_at : Option Nat
deriving DecidableEq, Repr

/-- The database state seen by the webhook route: both tables it touches. -/
structure WebhookState where
  events : List EventRec
  payments : List PaymentRec
deriving DecidableEq, Repr

/-- Python truthiness for an optional string: `None` and `""` are falsy. -/
def truthyStr : Option String → Option String
  | none => none
  | some s => if s = "" then none else some s

/-- `payload.get("event_id") or payload.get("eventId")`, followed by the
`if not event_id` guard: the first truthy value of the two, if any. -/
def firstTruthy (a b : Option String) : Option String :=
  match truthyStr a with
  | some s => some s
  | none => truthyStr b

/-! ### `_square_status_to_internal` (`app/routes/square.py`) -/

/-- Python's `str.upper`, restricted to ASCII (every status string the
mapping recognizes is ASCII). -/
def upperAscii (s : String) : String := ⟨s.data.map Char.toUpper⟩

/-- Embedding of `_square_status_to_internal`: uppercase the (possibly
absent) provider status and look it up in the fixed table, defaulting to
`pending`. -/
def _square_status_to_internal (status_value : Option String) : String :=
  let normalized := upperAscii (status_value.getD "")
  if normalized = "COMPLETED" then Payment.STATUS_COMPLETED
  else if normalized = "APPROVED" then Payment.STATUS_PENDING
  else if normalized = "AUTHORIZED" then Payment.STATUS_PENDING
  else if normalized = "PENDING" then Payment.STATUS_PENDING
  else if normalized = "FAILED" then Payment.STATUS_FAILED
  else if normalized = "CANCELED" then Payment.STATUS_FAILED
  else if normalized = "CANCELED_BY_CUSTOMER" then Payment.STATUS_FAILED
  else if normalized = "REFUNDED" then Payment.STATUS_REFUNDED
  else Payment.STATUS_PENDING

/-- The status table exactly as the specification prints it, as a function
of an already-normalized provider status.  Kept separate from the
embedding so that agreement between the two is a theorem. -/
def specStatusTable (s : String) : String :=
  if s = "COMPLETED" then "completed"
  else if s = "APPROVED" ∨ s = "AUTHORIZED" ∨ s = "PENDING" then "pending"
  else if s = "FAILED" ∨ s = "CANCELED" ∨ s = "CANCELED_BY_CUSTOMER" then "failed"
  else if s = "REFUNDED" then "refunded"
  else "pending"

/-! ### `verify_square_signature` (`app/core/square.py`) -/

/-- Embedding of `verify_square_signature`.  `hm` abstracts
`base64(HMAC-SHA1(key, message))`; the configured
`webhook_signature_key` is `key` (with `none`, and the falsy `""`,
meaning unconfigured); the signed message is `url + raw_body`. -/
def verify_square_signature (hm : String → String → String) (key : Option String)
    (raw_body url : String) (provided_signature : Option String) : Bool :=
  match key with
  | none => true
  | some k =>
    if k = "" then true
    else
      match provided_signature with
      | none => false
      | some s =>
        if s = "" then false
        else decide (s = hm k (url ++ raw_body))

/-! ### `_apply_payment_update` and `_dispatch_event` (`app/routes/square.py`) -/

/-- Update the first `payments` row whose `square_payment_id` matches,
returning `none` when no row matches (`scalar_one_or_none` found
nothing).  The matched row gets the mapped status, a history entry
appended, and the last raw response overwritten. -/
def updateFirstPayment (now : Nat) (pp : PaymentPayload) (pid : String) :
    List PaymentRec → Option (List PaymentRec)
  | [] => none
  | p :: rest =>
    if p.square_payment_id = some pid then
      some ({ p with
                pstatus := _square_status_to_internal pp.pstatus,
                webhook_history := p.webhook_history ++ [(now, pp)],
                square_response := some pp } :: rest)
    else (updateFirstPayment now pp pid rest).map (p :: ·)

/-- Embedding of `_apply_payment_update`: a missing/falsy Square payment id
or an unknown payment yields `"ignored"` with no writes; otherwise the
matched row is updated and the result is `"processed"`. -/
def _apply_payment_update (now : Nat) (pp : PaymentPayload)
    (payments : List PaymentRec) : String × List PaymentRec :=
  match truthyStr pp.pid with
  | none => ("ignored", payments)
  | some pid =>
    match updateFirstPayment now pp pid payments with
    | none => ("ignored", payments)
    | some payments' => ("processed", payments')

/-- Python's `str.startswith`, via the character lists (kept
kernel-reducible, unlike `String.startsWith`). -/
def pyStartsWith (s pre : String) : Bool := pre.data.isPrefixOf s.data

/-- Embedding of `_dispatch_event`: events whose type starts with
`"payment."` extract the nested payment object (falling back to
`data.object` itself when the `"payment"` key is absent or falsy) and
apply it; every other type is `"ignored"`. -/
def _dispatch_event (now : Nat) (payload : WebhookPayload)
    (payments : List PaymentRec) : String × List PaymentRec :=
  let event_type := payload.etype.getD "unknown"
  let resource := match payload.data with
    | some d => d
    | none => { location_id := none, object_payment := none,
                object_self := { pid := none, pstatus := none } }
  if pyStartsWith event_type "payment." then
    let payment_payload := match resource.object_payment with
      | some p => p
      | none => resource.object_self
    _apply_payment_update now payment_payload payments
  else ("ignored", payments)

/-! ### `handle_square_webhook` (`app/routes/square.py`) -/

/-- The JSON value returned by the route: either the short replay form
`{status, duplicate: true}` or the full form
`{status, eventId, signatureVerified, failureReason}`. -/
inductive WebhookResult where
  | dup (stat : String)
  | fresh (stat : String) (eventId : String) (signatureVerified : Bool)
      (failureReason : Option String)
deriving DecidableEq, Repr

/-- The `status` member common to both response shapes. -/
def WebhookResult.statusOf : WebhookResult → String
  | .dup s => s
  | .fresh s _ _ _ => s

/-- Outcome of one webhook request: an `HTTPException` with its status
code, or a JSON response (returned with code 202). -/
inductive WebhookOutcome where
  | err (code : Nat)
  | ok (r : WebhookResult)
deriving DecidableEq, Repr

/-- The `location_id` the route extracts:
`(payload.get("data") or \x7b\x7d).get("location_id")`. -/
def locationOf (p : WebhookPayload) : Option String :=
  match p.data with
  | some d => d.location_id
  | none => none

/-- Embedding of `handle_square_webhook`.  `parsed` is the result of
`json.loads` on the raw body (`none` = parse failure); an `HTTPException`
becomes `.error` with the HTTP status code, leaving the state untouched
(the exception is raised before any commit).  The dispatch step of the
pure model cannot raise, so the `"failed"` outcome of the Python
catch-all is unreachable here. -/
def handle_square_webhook (hm : String → String → String) (key : Option String)
    (url raw_body : String) (x_square_signature : Option String)
    (parsed : Option WebhookPayload) (now : Nat) (st : WebhookState) :
    WebhookOutcome × WebhookState :=
  match parsed with
  | none => (.err 400, st)
  | some payload =>
    match firstTruthy payload.event_id payload.eventId with
    | none => (.err 422, st)
    | some event_id =>
      let signature_valid :=
        verify_square_signature hm key raw_body url x_square_signature
      match st.events.find? (fun e => e.event_id = event_id) with
      | some existing => (.ok (.dup existing.estatus), st)
      | none =>
        let location_id := locationOf payload
        if signature_valid = false then
          let record : EventRec :=
            { event_id := event_id, event_type := payload.etype.getD "unknown",
              location_id := location_id, signature_verified := false,
              payload := payload, estatus := "rejected",
              failure_reason := some "Signature verification failed",
              processed_at := none }
          (.ok (.fresh "rejected" event_id false
                (some "Signature verification failed")),
           { st with events := st.events ++ [record] })
        else
          let (processing_status, payments') := _dispatch_event now payload st.payments
          let record : EventRec :=
            { event_id := event_id, event_type := payload.etype.getD "unknown",
              location_id := location_id, signature_verified := true,
              payload := payload, estatus := processing_status,
              failure_reason := none,
              processed_at :=
                if processing_status = "processed" ∨ processing_status = "ignored"
                then some now else none }
          (.ok (.fresh processing_status event_id true none),
           { events := st.events ++ [record], payments := payments' })

/-! ### Catalog data model (`app/models/catalog.py`) -/

/-- One entry of a Square item's `variations` list, restricted to the
fields the sync reads: `variation.get("id")` and the nested
`item_variation_data.price_money` amount/currency. -/
structure Variation where
  vid : Option String
  price_amount : Option Int
  price_currency : Option String
deriving DecidableEq, Repr

/-- One object of the remote catalog listing, restricted to the keys the
sync reads.  `otype` is `obj.get("type")`; `item_name`,
`item_description` and `variations` come from `obj.get("item_data")`;
`obj_is_deleted` is the truthiness of `obj.get("is_deleted", False)`. -/
structure RemoteObject where
  otype : Option String
  oid : Option String
  oversion : Option Int
  obj_is_deleted : Bool
  item_name : Option String
  item_description : Option String
  variations : List Variation
deriving DecidableEq, Repr

/-- A `square_catalog_items` row, restricted to the columns the sync
touches.  `product_id` holds the bound internal product id;
`updated_at` is the abstract clock value of the last write. -/
structure CatalogRecord where
  square_id : String
  variation_id : Option String
  cname : String
  description : Option String
  price_cents : Option Int
  currency : Option String
  is_deleted : Bool
  version : Int
  raw_payload : RemoteObject
  product_id : Option Nat
  updated_at : Nat
deriving DecidableEq, Repr

/-- A `products` row, restricted to the columns `_ensure_product_binding`
writes.  `id` is the primary key assigned at flush time, modelled by a
counter in the state. -/
structure ProductRec where
  id : Nat
  pname : String
  description : Option String
  price_cents : Int
  currency : String
  square_catalog_object_id : Option String
  square_catalog_variation_id : Option String
deriving DecidableEq, Repr

/-- The database state seen by the catalog sync: both tables it touches,
plus the next free product primary key. -/
structure CatalogState where
  items : List CatalogRecord
  products : List ProductRec
  next_product_id : Nat
deriving DecidableEq, Repr

/-- The `CatalogSyncStats` dataclass of `app/services/square_catalog.py`. -/
structure CatalogSyncStats where
  processed : Nat
  created : Nat
  updated : Nat
  deactivated : Nat
  errors : List String
  environment : Option String
deriving DecidableEq, Repr

/-! ### `SquareCatalogSyncService` (`app/services/square_catalog.py`) -/

/-- Outcome of `get_square_client()`: a configured client (with its
environment string) or a `SquareConfigurationError`. -/
inductive SquareClientResult where
  | ok (environment : Option String)
  | configError (msg : String)
deriving DecidableEq, Repr

/-- Outcome of the `catalog.list_catalog` call: the listed objects on
success, or the extracted error details when `response.is_error()`. -/
inductive SquareListResult where
  | ok (objects : List RemoteObject)
  | failure (errors : List String)
deriving DecidableEq, Repr

/-- The id under which the sync loop processes a remote object: its
`"id"`, provided the object has type `"ITEM"` and the id is truthy
(both `continue` guards of the loop). -/
def itemKey (o : RemoteObject) : Option String :=
  if o.otype = some "ITEM" then truthyStr o.oid else none

/-- All ids the sync loop processes out of a listing, in order. -/
def itemIds (objects : List RemoteObject) : List String :=
  objects.filterMap itemKey

/-- The ITEM ids of a listing whose objects are not flagged deleted:
after a sync these are exactly the non-deleted local ids. -/
def liveItemIds (objects : List RemoteObject) : List String :=
  objects.filterMap (fun o => if o.obj_is_deleted then none else itemKey o)

/-- First-variation extraction: `variations[0]`'s id, price amount and
currency, when any variation is listed. -/
def extractVariation (o : RemoteObject) :
    Option String × Option Int × Option String :=
  match o.variations with
  | [] => (none, none, none)
  | v :: _ => (v.vid, v.price_amount, v.price_currency)

/-- `record.square_id` of each row, the reconciliation key. -/
def recKeys (l : List CatalogRecord) : List String :=
  l.map (·.square_id)

/-- The first row with the given `square_id` (the dict lookup
`existing_items.get(square_id)`; the unique-constraint on `square_id`
makes the row unique in practice). -/
def findRecord (x : String) (l : List CatalogRecord) : Option CatalogRecord :=
  l.find? (fun r => r.square_id = x)

/-- Replace the first row with the given `square_id` (in-place mutation of
the looked-up ORM object). -/
def setRecord (x : String) (r' : CatalogRecord) :
    List CatalogRecord → List CatalogRecord
  | [] => []
  | r :: rest =>
    if r.square_id = x then r' :: rest else r :: setRecord x r' rest

/-- Embedding of `_ensure_product_binding`: create and bind an internal
product unless the row is already bound.  The new product id is the
state counter (`session.flush()` assigning the primary key). -/
def _ensure_product_binding (r : CatalogRecord) (products : List ProductRec)
    (nextPid : Nat) : CatalogRecord × List ProductRec × Nat :=
  match r.product_id with
  | some _ => (r, products, nextPid)
  | none =>
    let p : ProductRec :=
      { id := nextPid
        pname := r.cname
        description := r.description
        price_cents := r.price_cents.getD 0
        currency := match r.currency with
          | some c => if c = "" then "USD" else c
          | none => "USD"
        square_catalog_object_id := some r.square_id
        square_catalog_variation_id := r.variation_id }
    ({ r with product_id := some nextPid }, products ++ [p], nextPid + 1)

/-- Embedding of `_update_record`: compare every tracked field, write the
new values when anything differs, stamp `updated_at`, and ensure the
product binding for a non-deleted changed row.  Returns the resulting
row, the `has_changes` flag, and the threaded product table/counter. -/
def _update_record (now : Nat) (r : CatalogRecord) (variation_id : Option String)
    (cname : String) (description : Option String) (price_cents : Option Int)
    (currency : Option String) (version : Int) (payload : RemoteObject)
    (is_deleted : Bool) (products : List ProductRec) (nextPid : Nat) :
    CatalogRecord × Bool × List ProductRec × Nat :=
  let has_changes :=
    r.variation_id ≠ variation_id ∨ r.cname ≠ cname ∨
    r.description ≠ description ∨ r.price_cents ≠ price_cents ∨
    r.currency ≠ currency ∨ r.version ≠ version ∨
    r.is_deleted ≠ is_deleted ∨ r.raw_payload ≠ payload
  if has_changes then
    let r' : CatalogRecord :=
      { r with
          variation_id := variation_id, cname := cname,
          description := description, price_cents := price_cents,
          currency := currency, version := version, is_deleted := is_deleted,
          raw_payload := payload, updated_at := now }
    if is_deleted then (r', true, products, nextPid)
    else
      let (r'', products', n') := _ensure_product_binding r' products nextPid
      (r'', true, products', n')
  else (r, false, products, nextPid)

/-- Embedding of `_create_record`: build the new row from the extracted
fields and ensure the product binding when it is not deleted. -/
def _create_record (now : Nat) (square_id : String) (variation_id : Option String)
    (cname : String) (description : Option String) (price_cents : Option Int)
    (currency : Option String) (version : Int) (payload : RemoteObject)
    (is_deleted : Bool) (products : List ProductRec) (nextPid : Nat) :
    CatalogRecord × List ProductRec × Nat :=
  let r : CatalogRecord :=
    { square_id := square_id, variation_id := variation_id, cname := cname,
      description := description, price_cents := price_cents,
      currency := currency, is_deleted := is_deleted, version := version,
      raw_payload := payload, product_id := none, updated_at := now }
  if is_deleted then (r, products, nextPid)
  else _ensure_product_binding r products nextPid

/-- The mutable state of the sync's main loop: the preloaded local rows
(mutated in place), the rows added this pass, the seen-id set, the two
counters, and the threaded product table. -/
structure SyncLoop where
  existing : List CatalogRecord
  createdRecs : List CatalogRecord
  seen : List String
  createdCount : Nat
  updatedCount : Nat
  products : List ProductRec
  nextPid : Nat
deriving DecidableEq, Repr

/-- One iteration of the `for obj in objects` loop of `sync`. -/
def processObj (now : Nat) (acc : SyncLoop) (obj : RemoteObject) : SyncLoop :=
  match itemKey obj with
  | none => acc
  | some square_id =>
    let seen' := if square_id ∈ acc.seen then acc.seen else square_id :: acc.seen
    let cname := obj.item_name.getD "Unnamed Item"
    let description := obj.item_description
    let (variation_id, price_cents, currency) := extractVariation obj
    match findRecord square_id acc.existing with
    | some record =>
      let (r', has, products', n') :=
        _update_record now record variation_id cname description price_cents
          currency (obj.oversion.getD record.version) obj obj.obj_is_deleted
          acc.products acc.nextPid
      { acc with
          existing := setRecord square_id r' acc.existing
          seen := seen'
          updatedCount := acc.updatedCount + (if has then 1 else 0)
          products := products'
          nextPid := n' }
    | none =>
      let (r, products', n') :=
        _create_record now square_id variation_id cname description price_cents
          currency (obj.oversion.getD 0) obj obj.obj_is_deleted
          acc.products acc.nextPid
      { acc with
          createdRecs := acc.createdRecs ++ [r]
          seen := seen'
          createdCount := acc.createdCount + 1
          products := products'
          nextPid := n' }

/-- The stale-marking pass: soft-delete every preloaded row whose id the
listing did not mention and that is not already deleted, counting the
deactivations. -/
def deactivateStale (now : Nat) (seen : List String) :
    List CatalogRecord → List CatalogRecord × Nat
  | [] => ([], 0)
  | r :: rest =>
    let (rest', n) := deactivateStale now seen rest
    if r.square_id ∉ seen ∧ r.is_deleted = false then
      ({ r with is_deleted := true, updated_at := now } :: rest', n + 1)
    else (r :: rest', n)

/-- What the stale-marking pass does to one row. -/
def staleMark (now : Nat) (seen : List String) (r : CatalogRecord) : CatalogRecord :=
  if r.square_id ∉ seen ∧ r.is_deleted = false then
    { r with is_deleted := true, updated_at := now }
  else r

/-- The whole `for obj in objects` loop of `sync`. -/
def runLoop (now : Nat) (objs : List RemoteObject) (acc : SyncLoop) : SyncLoop :=
  objs.foldl (processObj now) acc

/-- The loop state `sync` starts from: the preloaded rows, empty seen set
and counters, and the current product table. -/
def initLoop (st : CatalogState) : SyncLoop :=
  { existing := st.items, createdRecs := [], seen := [], createdCount := 0,
    updatedCount := 0, products := st.products, nextPid := st.next_product_id }

/-- Embedding of `SquareCatalogSyncService.sync`.  The two failure exits
return all-zero stats and leave the state uncommitted; the success path
runs the reconcile loop, the stale-marking pass, and one commit.  The
returned `Bool` records whether `session.commit()` ran. -/
def sync (client : SquareClientResult) (resp : SquareListResult) (now : Nat)
    (st : CatalogState) : CatalogSyncStats × CatalogState × Bool :=
  match client with
  | .configError msg =>
    ({ processed := 0, created := 0, updated := 0, deactivated := 0,
       errors := [msg], environment := none }, st, false)
  | .ok env =>
    match resp with
    | .failure errs =>
      ({ processed := 0, created := 0, updated := 0, deactivated := 0,
         errors := if errs.isEmpty then ["Unknown Square error"] else errs,
         environment := none }, st, false)
    | .ok objects =>
      let res := runLoop now objects (initLoop st)
      let (existing', deactivated) := deactivateStale now res.seen res.existing
      ({ processed := res.seen.length, created := res.createdCount,
         updated := res.updatedCount, deactivated := deactivated,
         errors := [], environment := env },
       { items := existing' ++ res.createdRecs, products := res.products,
         next_product_id := res.nextPid }, true)

/-- The field values `sync` extracts from a remote object have been fully
applied to a local row: each tracked column equals the extraction, the raw
payload is the object, and the version is the remote one whenever the
remote supplied one. -/
def matchesObj (o : RemoteObject) (r : CatalogRecord) : Prop :=
  r.variation_id = (extractVariation o).1 ∧
  r.cname = o.item_name.getD "Unnamed Item" ∧
  r.description = o.item_description ∧
  r.price_cents = (extractVariation o).2.1 ∧
  r.currency = (extractVariation o).2.2 ∧
  r.version = o.oversion.getD r.version ∧
  r.is_deleted = o.obj_is_deleted ∧
  r.raw_payload = o

/-- `_update_record` exactly as the sync loop's update branch calls it. -/
def updateFromObj (now : Nat) (r : CatalogRecord) (o : RemoteObject)
    (ps : List ProductRec) (n : Nat) : CatalogRecord × Bool × List ProductRec × Nat :=
  _update_record now r (extractVariation o).1 (o.item_name.getD "Unnamed Item")
    o.item_description (extractVariation o).2.1 (extractVariation o).2.2
    (o.oversion.getD r.version) o o.obj_is_deleted ps n

/-- `_create_record` exactly as the sync loop's create branch calls it. -/
def createFromObj (now : Nat) (x : String) (o : RemoteObject)
    (ps : List ProductRec) (n : Nat) : CatalogRecord × List ProductRec × Nat :=
  _create_record now x (extractVariation o).1 (o.item_name.getD "Unnamed Item")
    o.item_description (extractVariation o).2.1 (extractVariation o).2.2
    (o.oversion.getD 0) o o.obj_is_deleted ps n

/-! ### Sample values used by the concrete instantiations below -/

/-- A remote ITEM with one variation priced 500 USD, at version 4. -/
def catObj1 : RemoteObject :=
  { otype := some "ITEM", oid := some "ITM1", oversion := some 4,
    obj_is_deleted := false, item_name := some "Candle", item_description := none,
    variations := [{ vid := some "V1", price_amount := some 500,
                     price_currency := some "USD" }] }

/-- A remote ITEM flagged deleted in the listing itself. -/
def catObjDel : RemoteObject :=
  { otype := some "ITEM", oid := some "A", oversion := some 1,
    obj_is_deleted := true, item_name := some "Gone", item_description := none,
    variations := [] }

/-- A remote ITEM for id `A` carrying version 3. -/
def catObjV3 : RemoteObject :=
  { otype := some "ITEM", oid := some "A", oversion := some 3,
    obj_is_deleted := false, item_name := some "N", item_description := none,
    variations := [] }

/-- An empty local catalog state. -/
def emptyCatalogState : CatalogState :=
  { items := [], products := [], next_product_id := 1 }

/-- A stored row for id `A` at version 5 (already bound to a product). -/
def catRecV5 : CatalogRecord :=
  { square_id := "A", variation_id := none, cname := "N", description := none,
    price_cents := none, currency := none, is_deleted := false, version := 5,
    raw_payload := catObjV3, product_id := some 1, updated_at := 0 }

/-- Local state holding only `catRecV5`. -/
def catStateV5 : CatalogState :=
  { items := [catRecV5], products := [], next_product_id := 2 }

/-- The row stored for `catObj1` after a first sync of the empty state. -/
def catRec1 : CatalogRecord :=
  { square_id := "ITM1", variation_id := some "V1", cname := "Candle",
    description := none, price_cents := some 500, currency := some "USD",
    is_deleted := false, version := 4, raw_payload := catObj1,
    product_id := some 1, updated_at := 10 }

/-- A webhook body with an event id and a non-payment type. -/
def wPayloadIgnored : WebhookPayload :=
  { event_id := some "E1", eventId := none, etype := some "other.event", data := none }

/-- The event row the route stores for `wPayloadIgnored` at tick 1. -/
def wEventIgnored : EventRec :=
  { event_id := "E1", event_type := "other.event", location_id := none,
    signature_verified := true, payload := wPayloadIgnored, estatus := "ignored",
    failure_reason := none, processed_at := some 1 }

/-- State after one delivery of `wPayloadIgnored`. -/
def wStateIgnored : WebhookState := { events := [wEventIgnored], payments := [] }

/-- A webhook body with event id `EVT` and a payment type. -/
def wPayloadEvt : WebhookPayload :=
  { event_id := some "EVT", eventId := none, etype := some "payment.updated",
    data := none }

/-- A stored event row for `EVT` that finished as `processed`. -/
def wEventProcessed : EventRec :=
  { event_id := "EVT", event_type := "payment.updated", location_id := none,
    signature_verified := true, payload := wPayloadEvt, estatus := "processed",
    failure_reason := none, processed_at := some 1 }

/-- State holding the already-processed `EVT` row. -/
def wStateProcessed : WebhookState := { events := [wEventProcessed], payments := [] }

/-! ## Theorems: webhook intake pipeline -/

/-- Claim C1 (idempotent delivery): once a delivery of a webhook has been
handled and stored — or the event id was already persisted — delivering the
same payload again returns `duplicate=true` together with exactly the status
of the previous response, and leaves the whole state (the stored event row
included) unmodified. -/
theorem claim1_idempotent_delivery (hm : String → String → String)
    (key : Option String) (url raw_body : String) (sig : Option String)
    (parsed : Option WebhookPayload) (now now2 : Nat) (st st1 : WebhookState)
    (r1 : WebhookResult)
    (h1 : handle_square_webhook hm key url raw_body sig parsed now st = (.ok r1, st1)) :
    handle_square_webhook hm key url raw_body sig parsed now2 st1 =
      (.ok (.dup r1.statusOf), st1) := by
  cases parsed with
  | none => simp [handle_square_webhook] at h1
  | some payload =>
    rw [handle_square_webhook] at h1
    rw [handle_square_webhook]
    cases hE : firstTruthy payload.event_id payload.eventId with
    | none => rw [hE] at h1; simp at h1
    | some eid =>
      rw [hE] at h1
      dsimp only at h1 ⊢
      cases hF : List.find? (fun e => decide (e.event_id = eid)) st.events with
      | some ex =>
        rw [hF] at h1
        simp only [Prod.mk.injEq, WebhookOutcome.ok.injEq] at h1
        obtain ⟨hr, hst⟩ := h1
        subst hst
        rw [hF]
        simp [← hr, WebhookResult.statusOf]
      | none =>
        rw [hF] at h1
        by_cases hS : verify_square_signature hm key raw_body url sig = false
        · rw [if_pos hS] at h1
          simp only [Prod.mk.injEq, WebhookOutcome.ok.injEq] at h1
          obtain ⟨hr, hst⟩ := h1
          subst hst
          dsimp only
          rw [List.find?_append, hF]
          simp [List.find?, ← hr, WebhookResult.statusOf]
        · rw [if_neg hS] at h1
          simp only [Prod.mk.injEq, WebhookOutcome.ok.injEq] at h1
          obtain ⟨hr, hst⟩ := h1
          subst hst
          dsimp only
          rw [List.find?_append, hF]
          simp [List.find?, ← hr, WebhookResult.statusOf]

/-- Concrete instantiation of C1: replaying an already-stored `ignored`
delivery yields `duplicate=true` with the same status and an unchanged
state. -/
theorem claim1_idempotent_delivery_sample :
    handle_square_webhook (fun _ _ => "SIG") none "u" "b" none (some wPayloadIgnored) 2
        wStateIgnored = (.ok (.dup "ignored"), wStateIgnored) :=
  claim1_idempotent_delivery (fun _ _ => "SIG") none "u" "b" none (some wPayloadIgnored)
    1 2 { events := [], payments := [] } wStateIgnored
    (.fresh "ignored" "E1" true none) (by decide)

/-- Counterexample to claim C2 as stated: a parseable request that carries
an event id whose row is already stored, a configured key, and an
incorrect signature is answered with the stored status (`processed`) and
`duplicate=true`; no row with status `rejected` exists afterwards, because
the duplicate check short-circuits before the signature outcome is
recorded. -/
theorem claim2_signature_gate_replay_cex :
    verify_square_signature (fun _ _ => "GOOD") (some "k") "b" "u" (some "BAD") = false ∧
    handle_square_webhook (fun _ _ => "GOOD") (some "k") "u" "b" (some "BAD")
        (some wPayloadEvt) 2 wStateProcessed =
      (.ok (.dup "processed"), wStateProcessed) ∧
    wStateProcessed.events.map (fun e => e.estatus) = ["processed"] := by
  refine ⟨by decide, by decide, by decide⟩

/-- Claim C2, amended (signature gate): for every webhook request whose
body parses and contains an event id that is *not already persisted*, if a
signature key is configured and the supplied signature is present but
incorrect, the event is recorded with status `rejected`, the per-event-type
handler is never invoked, and every Payment record is left completely
unmutated (the resulting state keeps `st.payments` verbatim). -/
theorem claim2_signature_gate_fresh (hm : String → String → String)
    (k url raw_body s : String) (payload : WebhookPayload) (eid : String)
    (now : Nat) (st : WebhookState)
    (hk : k ≠ "") (hs : s ≠ "") (hwrong : s ≠ hm k (url ++ raw_body))
    (hid : firstTruthy payload.event_id payload.eventId = some eid)
    (hfresh : st.events.find? (fun e => e.event_id = eid) = none) :
    handle_square_webhook hm (some k) url raw_body (some s) (some payload) now st =
      (.ok (.fresh "rejected" eid false (some "Signature verification failed")),
       { st with
           events := st.events ++
             [{ event_id := eid, event_type := payload.etype.getD "unknown",
                location_id := locationOf payload, signature_verified := false,
                payload := payload, estatus := "rejected",
                failure_reason := some "Signature verification failed",
                processed_at := none }] }) := by
  have hv : verify_square_signature hm (some k) raw_body url (some s) = false := by
    rw [verify_square_signature]
    simp [hk, hs, hwrong]
  rw [handle_square_webhook, hid]
  dsimp only
  rw [hfresh, hv]
  rfl

/-- Concrete instantiation of the amended C2: a fresh event id with a wrong
signature is stored as `rejected` and the payment table is untouched. -/
theorem claim2_signature_gate_fresh_sample :
    handle_square_webhook (fun _ _ => "GOOD") (some "k") "u" "b" (some "BAD")
        (some wPayloadEvt) 3 { events := [], payments := [] } =
      (.ok (.fresh "rejected" "EVT" false (some "Signature verification failed")),
       { events := [{ event_id := "EVT", event_type := "payment.updated",
                      location_id := none, signature_verified := false,
                      payload := wPayloadEvt, estatus := "rejected",
                      failure_reason := some "Signature verification failed",
                      processed_at := none }],
         payments := [] }) :=
  claim2_signature_gate_fresh (fun _ _ => "GOOD") "k" "u" "b" "BAD" wPayloadEvt "EVT" 3
    { events := [], payments := [] } (by decide) (by decide) (by decide)
    (by decide) (by decide)

/-- Claim C4, amended (status mapping totality): the mapping always returns
one of the four internal statuses, and equals the specification's table
applied to the *upper-cased* input — the table keys are matched
case-insensitively, so inputs other than the eight listed strings default
to `pending` only when their upper-case form is also unrecognized. -/
theorem claim4_status_mapping (s : Option String) :
    _square_status_to_internal s = specStatusTable (upperAscii (s.getD "")) ∧
      (_square_status_to_internal s = "completed" ∨
       _square_status_to_internal s = "pending" ∨
       _square_status_to_internal s = "failed" ∨
       _square_status_to_internal s = "refunded") := by
  unfold _square_status_to_internal specStatusTable
  unfold Payment.STATUS_COMPLETED Payment.STATUS_PENDING Payment.STATUS_FAILED
    Payment.STATUS_REFUNDED
  dsimp only
  constructor
  · split_ifs <;> simp_all
  · split_ifs <;> simp

/-- Counterexample to claim C4 as stated: `"completed"` is not one of the
eight listed provider statuses, yet it maps to `completed`, not to the
claimed default `pending` (the code upper-cases before the lookup). -/
theorem claim4_status_mapping_cex :
    _square_status_to_internal (some "completed") = "completed" ∧
      "completed" ∉ ["COMPLETED", "APPROVED", "AUTHORIZED", "PENDING", "FAILED",
        "CANCELED", "CANCELED_BY_CUSTOMER", "REFUNDED"] ∧
      "completed" ≠ "pending" := by decide

/-- Claim C5 (signature verifier contract): verification succeeds whenever
no key is configured; fails whenever a key is configured but no signature
header was supplied; and otherwise succeeds exactly when the supplied
header equals `base64(HMAC-SHA1(key, url ++ body))` (abstracted as `hm`;
`hmac.compare_digest` decides equality of the two digests). -/
theorem claim5_signature_verifier (hm : String → String → String)
    (key : Option String) (raw_body url : String) (sig : Option String) :
    (key = none → verify_square_signature hm key raw_body url sig = true) ∧
    (∀ k, key = some k → k ≠ "" → sig = none →
        verify_square_signature hm key raw_body url sig = false) ∧
    (∀ k, key = some k → k ≠ "" → hm k (url ++ raw_body) ≠ "" →
        (verify_square_signature hm key raw_body url sig = true ↔
          sig = some (hm k (url ++ raw_body)))) := by
  refine ⟨fun h => by rw [h, verify_square_signature], ?_, ?_⟩
  · intro k hk hke hs
    rw [hk, hs, verify_square_signature]
    simp [hke]
  · intro k hk hke hexp
    subst hk
    cases sig with
    | none =>
      rw [verify_square_signature]
      simp [hke]
    | some s =>
      rw [verify_square_signature]
      by_cases hse : s = ""
      · subst hse
        simp [hke]
        exact fun h => absurd h.symm hexp
      · simp [hke, hse]

/-- Concrete instantiation of C5: a matching signature verifies. -/
theorem claim5_signature_verifier_sample :
    verify_square_signature (fun _ _ => "EXPECTED") (some "key") "b" "u"
      (some "EXPECTED") = true :=
  ((claim5_signature_verifier (fun _ _ => "EXPECTED") (some "key") "b" "u"
    (some "EXPECTED")).2.2 "key" rfl (by decide) (by decide)).mpr rfl

/-- Claim C9, amended (client-error gate): an unparsable body is rejected
with HTTP 400 and a parseable body lacking a truthy event id under both
key spellings is rejected with HTTP 422; in either case the state — and so
the event table — is returned unchanged (the exception is raised before
anything is persisted). -/
theorem claim9_client_error_gate (hm : String → String → String) (key : Option String)
    (url raw_body : String) (sig : Option String) (now : Nat) (st : WebhookState)
    (p : WebhookPayload) :
    handle_square_webhook hm key url raw_body sig none now st = (.err 400, st) ∧
    (firstTruthy p.event_id p.eventId = none →
      handle_square_webhook hm key url raw_body sig (some p) now st = (.err 422, st)) := by
  constructor
  · rfl
  · intro h
    rw [handle_square_webhook, h]

/-- Concrete instantiation of the amended C9: an unparsable body yields
HTTP 400 with nothing persisted. -/
theorem claim9_client_error_gate_sample :
    handle_square_webhook (fun _ _ => "") none "u" "b" none none 0
      { events := [], payments := [] } = (.err 400, { events := [], payments := [] }) :=
  (claim9_client_error_gate (fun _ _ => "") none "u" "b" none 0
    { events := [], payments := [] }
    { event_id := none, eventId := none, etype := none, data := none }).1

/-- Counterexample to claim C9 as stated: a parseable body missing the
event id is answered with HTTP 422, not with the claimed 400 (nothing is
persisted either way). -/
theorem claim9_client_error_cex :
    handle_square_webhook (fun _ _ => "") none "u" "b" none
        (some { event_id := none, eventId := some "", etype := some "payment.updated",
                data := none }) 0 { events := [], payments := [] } =
      (.err 422, { events := [], payments := [] }) ∧ (422 : Nat) ≠ 400 := by decide

/-- Claim C10 (implicit payment-payload fallback): for a `payment.`-typed
event whose `data.object` has no truthy `payment` key, the dispatcher
applies `data.object` itself, so a payload with the payment fields at the
top level of `data.object` is processed exactly like one carrying the same
fields inside a nested `payment` object. -/
theorem claim10_payment_fallback (now : Nat) (payments : List PaymentRec)
    (e1 e2 e1' e2' et loc loc' : Option String) (q junk : PaymentPayload)
    (h : pyStartsWith (et.getD "unknown") "payment.") :
    _dispatch_event now
        { event_id := e1, eventId := e2, etype := et,
          data := some { location_id := loc, object_payment := none, object_self := q } }
        payments = _apply_payment_update now q payments ∧
    _dispatch_event now
        { event_id := e1', eventId := e2', etype := et,
          data := some { location_id := loc', object_payment := some q, object_self := junk } }
        payments = _apply_payment_update now q payments := by
  unfold _dispatch_event
  dsimp only
  rw [if_pos h]
  exact ⟨rfl, rfl⟩

/-- Concrete instantiation of C10: the top-level form dispatches through
`_apply_payment_update` on `data.object` itself. -/
theorem claim10_payment_fallback_sample :
    _dispatch_event 0
        { event_id := none, eventId := none, etype := some "payment.updated",
          data := some { location_id := none, object_payment := none,
                         object_self := { pid := none, pstatus := none } } } [] =
      _apply_payment_update 0 { pid := none, pstatus := none } [] :=
  (claim10_payment_fallback 0 [] none none none none (some "payment.updated") none none
    { pid := none, pstatus := none } { pid := none, pstatus := none } (by decide)).1

/-! ## Theorems: catalog reconciliation -/

/-- Claim C6 (sync fail-fast): a missing/unconfigurable client, or an error
response from the listing call, makes `sync` return all-zero statistics
with the error text captured in `errors`, perform no writes, and commit
nothing — the state comes back unchanged and the commit flag is `false`. -/
theorem claim6_sync_fail_fast (msg : String) (resp : SquareListResult)
    (env : Option String) (errs : List String) (now : Nat) (st : CatalogState) :
    sync (.configError msg) resp now st =
      ({ processed := 0, created := 0, updated := 0, deactivated := 0,
         errors := [msg], environment := none }, st, false) ∧
    sync (.ok env) (.failure errs) now st =
      ({ processed := 0, created := 0, updated := 0, deactivated := 0,
         errors := if errs.isEmpty then ["Unknown Square error"] else errs,
         environment := none }, st, false) ∧
    (sync (.ok env) (.failure errs) now st).1.errors ≠ [] := by
  refine ⟨rfl, rfl, ?_⟩
  cases errs <;> simp [sync]

/-! ## Helper lemmas for the catalog reconciliation proofs -/

-- unfolding lemmas for processObj
theorem processObj_skip (now : Nat) (acc : SyncLoop) (o : RemoteObject)
    (h : itemKey o = none) : processObj now acc o = acc := by
  unfold processObj
  rw [h]

theorem processObj_update (now : Nat) (acc : SyncLoop) (o : RemoteObject) (x : String)
    (r : CatalogRecord) (hk : itemKey o = some x)
    (hf : findRecord x acc.existing = some r) :
    processObj now acc o =
      { acc with
          existing := setRecord x (updateFromObj now r o acc.products acc.nextPid).1
            acc.existing
          seen := if x ∈ acc.seen then acc.seen else x :: acc.seen
          updatedCount := acc.updatedCount +
            (if (updateFromObj now r o acc.products acc.nextPid).2.1 then 1 else 0)
          products := (updateFromObj now r o acc.products acc.nextPid).2.2.1
          nextPid := (updateFromObj now r o acc.products acc.nextPid).2.2.2 } := by
  unfold processObj updateFromObj
  rw [hk]
  dsimp only
  rw [hf]

theorem processObj_create (now : Nat) (acc : SyncLoop) (o : RemoteObject) (x : String)
    (hk : itemKey o = some x)
    (hf : findRecord x acc.existing = none) :
    processObj now acc o =
      { acc with
          createdRecs := acc.createdRecs ++ [(createFromObj now x o acc.products acc.nextPid).1]
          seen := if x ∈ acc.seen then acc.seen else x :: acc.seen
          createdCount := acc.createdCount + 1
          products := (createFromObj now x o acc.products acc.nextPid).2.1
          nextPid := (createFromObj now x o acc.products acc.nextPid).2.2 } := by
  unfold processObj createFromObj
  rw [hk]
  dsimp only
  rw [hf]

-- list helpers
theorem findRecord_append (x : String) (l1 l2 : List CatalogRecord) :
    findRecord x (l1 ++ l2) = (findRecord x l1).or (findRecord x l2) :=
  List.find?_append

theorem findRecord_eq_none (x : String) (l : List CatalogRecord) :
    findRecord x l = none ↔ x ∉ recKeys l := by
  unfold findRecord recKeys
  rw [List.find?_eq_none]
  simp

theorem findRecord_key {x : String} {l : List CatalogRecord} {r : CatalogRecord}
    (h : findRecord x l = some r) : r.square_id = x := by
  have := List.find?_some h
  simpa using this

theorem findRecord_mem {x : String} {l : List CatalogRecord} {r : CatalogRecord}
    (h : findRecord x l = some r) : r ∈ l :=
  List.mem_of_find?_eq_some h

theorem recKeys_setRecord (x : String) (r' : CatalogRecord) (l : List CatalogRecord)
    (h : r'.square_id = x) : recKeys (setRecord x r' l) = recKeys l := by
  induction l with
  | nil => rfl
  | cons r rest ih =>
    unfold setRecord
    by_cases hx : r.square_id = x
    · rw [if_pos hx]
      simp [recKeys, h, hx]
    · rw [if_neg hx]
      simp only [recKeys, List.map_cons, List.map]
      simp only [recKeys] at ih
      rw [ih]

theorem findRecord_setRecord_self (x : String) (r' : CatalogRecord)
    (l : List CatalogRecord) (h : r'.square_id = x)
    (hf : (findRecord x l).isSome) : findRecord x (setRecord x r' l) = some r' := by
  induction l with
  | nil => simp [findRecord] at hf
  | cons r rest ih =>
    unfold setRecord
    by_cases hx : r.square_id = x
    · rw [if_pos hx]
      simp [findRecord, List.find?, h]
    · rw [if_neg hx]
      unfold findRecord at hf ⊢
      rw [List.find?_cons_of_neg _ (by simpa using hx)] at hf
      rw [List.find?_cons_of_neg _ (by simpa using hx)]
      exact ih hf

theorem findRecord_setRecord_ne (x y : String) (r' : CatalogRecord)
    (l : List CatalogRecord) (h : r'.square_id = x) (hxy : y ≠ x) :
    findRecord y (setRecord x r' l) = findRecord y l := by
  induction l with
  | nil => rfl
  | cons r rest ih =>
    unfold setRecord
    by_cases hx : r.square_id = x
    · rw [if_pos hx]
      unfold findRecord
      rw [List.find?_cons_of_neg _ (by simp [h]; exact fun hh => hxy hh.symm),
        List.find?_cons_of_neg _ (by simp [hx]; exact fun hh => hxy hh.symm)]
    · rw [if_neg hx]
      unfold findRecord
      by_cases hy : r.square_id = y
      · rw [List.find?_cons_of_pos _ (by simpa using hy),
          List.find?_cons_of_pos _ (by simpa using hy)]
      · rw [List.find?_cons_of_neg _ (by simpa using hy),
          List.find?_cons_of_neg _ (by simpa using hy)]
        exact ih

theorem setRecord_eq_self (x : String) (r : CatalogRecord) (l : List CatalogRecord)
    (h : findRecord x l = some r) : setRecord x r l = l := by
  induction l with
  | nil => rfl
  | cons a rest ih =>
    unfold setRecord
    by_cases hx : a.square_id = x
    · rw [if_pos hx]
      unfold findRecord at h
      rw [List.find?_cons_of_pos _ (by simpa using hx)] at h
      injection h with h
      rw [h]
    · rw [if_neg hx]
      unfold findRecord at h
      rw [List.find?_cons_of_neg _ (by simpa using hx)] at h
      rw [ih h]

theorem mem_setRecord {x : String} {r' : CatalogRecord} {l : List CatalogRecord}
    {r : CatalogRecord} (h : r ∈ setRecord x r' l) : r = r' ∨ r ∈ l := by
  induction l with
  | nil => simp [setRecord] at h
  | cons a rest ih =>
    unfold setRecord at h
    by_cases hx : a.square_id = x
    · rw [if_pos hx] at h
      rcases List.mem_cons.mp h with h | h
      · exact Or.inl h
      · exact Or.inr (List.mem_cons_of_mem _ h)
    · rw [if_neg hx] at h
      rcases List.mem_cons.mp h with h | h
      · exact Or.inr (h ▸ List.mem_cons_self _ _)
      · rcases ih h with h | h
        · exact Or.inl h
        · exact Or.inr (List.mem_cons_of_mem _ h)

theorem findRecord_of_mem_nodup {l : List CatalogRecord} {r : CatalogRecord}
    (hn : (recKeys l).Nodup) (hr : r ∈ l) : findRecord r.square_id l = some r := by
  induction l with
  | nil => simp at hr
  | cons a rest ih =>
    rcases List.mem_cons.mp hr with h | h
    · subst h
      unfold findRecord
      rw [List.find?_cons_of_pos _ (by simp)]
    · unfold findRecord
      have hne : a.square_id ≠ r.square_id := by
        intro he
        have : r.square_id ∈ recKeys rest := List.mem_map_of_mem _ h
        rw [← he] at this
        exact (List.nodup_cons.mp hn).1 this
      rw [List.find?_cons_of_neg _ (by simpa using hne)]
      exact ih (List.nodup_cons.mp hn).2 h

-- stale-pass lemmas
theorem staleMark_key (now : Nat) (seen : List String) (r : CatalogRecord) :
    (staleMark now seen r).square_id = r.square_id := by
  unfold staleMark
  split <;> rfl

theorem staleMark_product (now : Nat) (seen : List String) (r : CatalogRecord) :
    (staleMark now seen r).product_id = r.product_id := by
  unfold staleMark
  split <;> rfl

theorem staleMark_version (now : Nat) (seen : List String) (r : CatalogRecord) :
    (staleMark now seen r).version = r.version := by
  unfold staleMark
  split <;> rfl

theorem staleMark_of_seen (now : Nat) (seen : List String) (r : CatalogRecord)
    (h : r.square_id ∈ seen) : staleMark now seen r = r := by
  unfold staleMark
  rw [if_neg]
  simp [h]

theorem staleMark_deleted (now : Nat) (seen : List String) (r : CatalogRecord)
    (h : r.square_id ∉ seen) : (staleMark now seen r).is_deleted = true := by
  unfold staleMark
  by_cases hd : r.is_deleted = false
  · rw [if_pos ⟨h, hd⟩]
  · rw [if_neg (by simp [hd])]
    simpa using hd

theorem deactivateStale_fst (now : Nat) (seen : List String) (l : List CatalogRecord) :
    (deactivateStale now seen l).1 = l.map (staleMark now seen) := by
  induction l with
  | nil => rfl
  | cons r rest ih =>
    unfold deactivateStale
    dsimp only
    rw [List.map_cons]
    split
    case isTrue h =>
      dsimp only
      rw [← ih]
      unfold staleMark
      rw [if_pos h]
    case isFalse h =>
      dsimp only
      rw [← ih]
      unfold staleMark
      rw [if_neg h]

theorem deactivateStale_id (now : Nat) (seen : List String) (l : List CatalogRecord)
    (h : ∀ r ∈ l, r.square_id ∈ seen ∨ r.is_deleted = true) :
    deactivateStale now seen l = (l, 0) := by
  induction l with
  | nil => rfl
  | cons r rest ih =>
    unfold deactivateStale
    rw [ih (fun a ha => h a (List.mem_cons_of_mem _ ha))]
    dsimp only
    rw [if_neg]
    rcases h r (List.mem_cons_self _ _) with hs | hd
    · simp [hs]
    · simp [hd]

theorem findRecord_map_stale (x : String) (now : Nat) (seen : List String)
    (l : List CatalogRecord) :
    findRecord x (l.map (staleMark now seen)) =
      (findRecord x l).map (staleMark now seen) := by
  induction l with
  | nil => rfl
  | cons r rest ih =>
    unfold findRecord
    by_cases hx : r.square_id = x
    · rw [List.map_cons, List.find?_cons_of_pos _ (by simp [staleMark_key, hx]),
        List.find?_cons_of_pos _ (by simpa using hx)]
      rfl
    · rw [List.map_cons, List.find?_cons_of_neg _ (by simp [staleMark_key, hx]),
        List.find?_cons_of_neg _ (by simpa using hx)]
      exact ih

theorem recKeys_map_stale (now : Nat) (seen : List String) (l : List CatalogRecord) :
    recKeys (l.map (staleMark now seen)) = recKeys l := by
  unfold recKeys
  rw [List.map_map]
  exact List.map_congr_left (fun r _ => staleMark_key now seen r)

-- record-level lemmas
theorem ensure_cases (r : CatalogRecord) (ps : List ProductRec) (n : Nat) :
    (r.product_id.isSome = true ∧ _ensure_product_binding r ps n = (r, ps, n)) ∨
    (r.product_id = none ∧
      _ensure_product_binding r ps n =
        ({ r with product_id := some n },
         ps ++ [{ id := n, pname := r.cname, description := r.description,
                  price_cents := r.price_cents.getD 0,
                  currency := match r.currency with
                    | some c => if c = "" then "USD" else c
                    | none => "USD",
                  square_catalog_object_id := some r.square_id,
                  square_catalog_variation_id := r.variation_id }], n + 1)) := by
  cases h : r.product_id with
  | none =>
    right
    refine ⟨rfl, ?_⟩
    unfold _ensure_product_binding
    rw [h]
  | some p =>
    left
    refine ⟨by simp, ?_⟩
    unfold _ensure_product_binding
    rw [h]

theorem update_no_change (now : Nat) (r : CatalogRecord) (o : RemoteObject)
    (ps : List ProductRec) (n : Nat) (h : matchesObj o r) :
    updateFromObj now r o ps n = (r, false, ps, n) := by
  obtain ⟨h1, h2, h3, h4, h5, h6, h7, h8⟩ := h
  unfold updateFromObj _update_record
  rw [if_neg]
  intro hc
  rcases hc with hc | hc | hc | hc | hc | hc | hc | hc <;>
    [exact hc h1; exact hc h2; exact hc h3; exact hc h4; exact hc h5;
     exact hc h6; exact hc h7; exact hc h8]

theorem ensure_fst_fields (r : CatalogRecord) (ps : List ProductRec) (n : Nat) :
    ∃ pid, (_ensure_product_binding r ps n).1 = { r with product_id := pid } ∧
      ∀ p, r.product_id = some p → pid = some p := by
  rcases ensure_cases r ps n with ⟨hp, he⟩ | ⟨hp, he⟩
  · exact ⟨r.product_id, by rw [he], fun p hp' => hp'⟩
  · refine ⟨some n, by rw [he], fun p hp' => ?_⟩
    rw [hp] at hp'
    exact absurd hp' (by simp)

theorem ensure_snd (r : CatalogRecord) (ps : List ProductRec) (n : Nat) :
    ∃ newps, (_ensure_product_binding r ps n).2.1 = ps ++ newps ∧
      newps.length ≤ 1 ∧
      ∀ q ∈ newps, q.square_catalog_object_id = some r.square_id := by
  rcases ensure_cases r ps n with ⟨hp, he⟩ | ⟨hp, he⟩
  · exact ⟨[], by rw [he]; simp, by simp, by simp⟩
  · refine ⟨_, by rw [he], by simp, ?_⟩
    intro q hq
    rw [List.mem_singleton] at hq
    rw [hq]

theorem update_spec (now : Nat) (r : CatalogRecord) (o : RemoteObject)
    (ps : List ProductRec) (n : Nat) :
    matchesObj o (updateFromObj now r o ps n).1 ∧
    (updateFromObj now r o ps n).1.square_id = r.square_id ∧
    (∀ p, r.product_id = some p → (updateFromObj now r o ps n).1.product_id = some p) ∧
    ((updateFromObj now r o ps n).1.version = r.version ∨
      ∃ v, o.oversion = some v ∧ (updateFromObj now r o ps n).1.version = v) ∧
    (∃ newps, (updateFromObj now r o ps n).2.2.1 = ps ++ newps ∧ newps.length ≤ 1 ∧
      ∀ q ∈ newps, q.square_catalog_object_id = some r.square_id) := by
  by_cases hc : r.variation_id ≠ (extractVariation o).1 ∨
      r.cname ≠ o.item_name.getD "Unnamed Item" ∨
      r.description ≠ o.item_description ∨
      r.price_cents ≠ (extractVariation o).2.1 ∨
      r.currency ≠ (extractVariation o).2.2 ∨
      r.version ≠ o.oversion.getD r.version ∨
      r.is_deleted ≠ o.obj_is_deleted ∨
      r.raw_payload ≠ o
  case neg =>
    push_neg at hc
    have hm : matchesObj o r :=
      ⟨hc.1, hc.2.1, hc.2.2.1, hc.2.2.2.1, hc.2.2.2.2.1, hc.2.2.2.2.2.1,
       hc.2.2.2.2.2.2.1, hc.2.2.2.2.2.2.2⟩
    rw [update_no_change now r o ps n hm]
    exact ⟨hm, rfl, fun p hp => hp, Or.inl rfl, ⟨[], by simp⟩⟩
  case pos =>
    unfold updateFromObj _update_record
    rw [if_pos hc]
    dsimp only
    by_cases hd : o.obj_is_deleted
    · rw [if_pos hd]
      refine ⟨⟨rfl, rfl, rfl, rfl, rfl, ?_, rfl, rfl⟩, rfl, fun p hp => hp, ?_,
        ⟨[], by simp⟩⟩
      · cases o.oversion <;> rfl
      · cases hv : o.oversion with
        | none => exact Or.inl rfl
        | some v => exact Or.inr ⟨v, rfl, rfl⟩
    · rw [if_neg hd]
      dsimp only
      set r' : CatalogRecord :=
        { r with
            variation_id := (extractVariation o).1
            cname := o.item_name.getD "Unnamed Item"
            description := o.item_description
            price_cents := (extractVariation o).2.1
            currency := (extractVariation o).2.2
            version := o.oversion.getD r.version
            is_deleted := o.obj_is_deleted
            raw_payload := o
            updated_at := now } with hr'
      obtain ⟨pid, hfst, hpid⟩ := ensure_fst_fields r' ps n
      obtain ⟨newps, hsnd, hlen, hq⟩ := ensure_snd r' ps n
      rw [hfst, hsnd]
      refine ⟨⟨rfl, rfl, rfl, rfl, rfl, ?_, rfl, rfl⟩, rfl, ?_, ?_, newps, rfl, hlen, ?_⟩
      · show r'.version = o.oversion.getD r'.version
        rw [hr']
        cases o.oversion <;> rfl
      · intro p hp
        show pid = some p
        exact hpid p (by rw [hr']; exact hp)
      · show r'.version = r.version ∨ ∃ v, o.oversion = some v ∧ r'.version = v
        rw [hr']
        cases hv : o.oversion with
        | none => exact Or.inl rfl
        | some v => exact Or.inr ⟨v, rfl, rfl⟩
      · intro q hqq
        have := hq q hqq
        rw [this, hr']

theorem create_spec (now : Nat) (x : String) (o : RemoteObject)
    (ps : List ProductRec) (n : Nat) :
    matchesObj o (createFromObj now x o ps n).1 ∧
    (createFromObj now x o ps n).1.square_id = x ∧
    ((createFromObj now x o ps n).1.version = 0 ∨
      ∃ v, o.oversion = some v ∧ (createFromObj now x o ps n).1.version = v) ∧
    (∃ newps, (createFromObj now x o ps n).2.1 = ps ++ newps ∧ newps.length ≤ 1 ∧
      ∀ q ∈ newps, q.square_catalog_object_id = some x) := by
  unfold createFromObj _create_record
  dsimp only
  by_cases hd : o.obj_is_deleted
  · rw [if_pos hd]
    refine ⟨⟨rfl, rfl, rfl, rfl, rfl, ?_, rfl, rfl⟩, rfl, ?_, ⟨[], by simp⟩⟩
    · cases o.oversion <;> rfl
    · cases hv : o.oversion with
      | none => exact Or.inl rfl
      | some v => exact Or.inr ⟨v, rfl, rfl⟩
  · rw [if_neg hd]
    set r0 : CatalogRecord :=
      { square_id := x, variation_id := (extractVariation o).1
        cname := o.item_name.getD "Unnamed Item"
        description := o.item_description
        price_cents := (extractVariation o).2.1
        currency := (extractVariation o).2.2
        is_deleted := o.obj_is_deleted
        version := o.oversion.getD 0
        raw_payload := o, product_id := none, updated_at := now } with hr0
    obtain ⟨pid, hfst, hpid⟩ := ensure_fst_fields r0 ps n
    obtain ⟨newps, hsnd, hlen, hq⟩ := ensure_snd r0 ps n
    rw [hfst, hsnd]
    refine ⟨⟨rfl, rfl, rfl, rfl, rfl, ?_, rfl, rfl⟩, rfl, ?_, newps, rfl, hlen, ?_⟩
    · show r0.version = o.oversion.getD r0.version
      rw [hr0]
      cases o.oversion <;> rfl
    · show r0.version = 0 ∨ ∃ v, o.oversion = some v ∧ r0.version = v
      rw [hr0]
      cases hv : o.oversion with
      | none => exact Or.inl rfl
      | some v => exact Or.inr ⟨v, rfl, rfl⟩
    · intro q hqq
      have := hq q hqq
      rw [this, hr0]

/-! ## Loop-level lemmas for the reconcile pass -/


theorem runLoop_nil (now : Nat) (acc : SyncLoop) : runLoop now [] acc = acc := rfl

theorem runLoop_cons (now : Nat) (o : RemoteObject) (rest : List RemoteObject)
    (acc : SyncLoop) :
    runLoop now (o :: rest) acc = runLoop now rest (processObj now acc o) := rfl

theorem itemIds_cons_none {o : RemoteObject} (rest : List RemoteObject)
    (h : itemKey o = none) : itemIds (o :: rest) = itemIds rest := by
  unfold itemIds
  rw [List.filterMap_cons_none h]

theorem itemIds_cons_some {o : RemoteObject} {x : String} (rest : List RemoteObject)
    (h : itemKey o = some x) : itemIds (o :: rest) = x :: itemIds rest := by
  unfold itemIds
  rw [List.filterMap_cons_some h]

theorem loop_keys (now : Nat) (objs : List RemoteObject) :
    ∀ acc : SyncLoop, recKeys (runLoop now objs acc).existing = recKeys acc.existing := by
  induction objs with
  | nil => intro acc; rfl
  | cons o rest ih =>
    intro acc
    rw [runLoop_cons]
    cases hk : itemKey o with
    | none => rw [processObj_skip now acc o hk]; exact ih _
    | some x =>
      cases hf : findRecord x acc.existing with
      | some r =>
        rw [processObj_update now acc o x r hk hf, ih]
        exact recKeys_setRecord x _ _
          (by rw [(update_spec now r o acc.products acc.nextPid).2.1, findRecord_key hf])
      | none =>
        rw [processObj_create now acc o x hk hf]
        exact ih _

theorem loop_seen (now : Nat) (objs : List RemoteObject) :
    ∀ (acc : SyncLoop) (x : String),
      x ∈ (runLoop now objs acc).seen ↔ x ∈ acc.seen ∨ x ∈ itemIds objs := by
  induction objs with
  | nil => intro acc x; simp [runLoop_nil, itemIds]
  | cons o rest ih =>
    intro acc x
    rw [runLoop_cons]
    cases hk : itemKey o with
    | none =>
      rw [processObj_skip now acc o hk, itemIds_cons_none rest hk]
      exact ih _ _
    | some y =>
      rw [itemIds_cons_some rest hk]
      cases hf : findRecord y acc.existing with
      | some r =>
        rw [processObj_update now acc o y r hk hf, ih]
        dsimp only
        by_cases hy : y ∈ acc.seen
        · rw [if_pos hy]
          constructor
          · rintro (h | h)
            · exact Or.inl h
            · exact Or.inr (List.mem_cons_of_mem _ h)
          · rintro (h | h)
            · exact Or.inl h
            · rcases List.mem_cons.mp h with h | h
              · exact Or.inl (h ▸ hy)
              · exact Or.inr h
        · rw [if_neg hy]
          constructor
          · rintro (h | h)
            · rcases List.mem_cons.mp h with h | h
              · exact Or.inr (List.mem_cons.mpr (Or.inl h))
              · exact Or.inl h
            · exact Or.inr (List.mem_cons_of_mem _ h)
          · rintro (h | h)
            · exact Or.inl (List.mem_cons_of_mem _ h)
            · rcases List.mem_cons.mp h with h | h
              · exact Or.inl (List.mem_cons.mpr (Or.inl h))
              · exact Or.inr h
      | none =>
        rw [processObj_create now acc o y hk hf, ih]
        dsimp only
        by_cases hy : y ∈ acc.seen
        · rw [if_pos hy]
          constructor
          · rintro (h | h)
            · exact Or.inl h
            · exact Or.inr (List.mem_cons_of_mem _ h)
          · rintro (h | h)
            · exact Or.inl h
            · rcases List.mem_cons.mp h with h | h
              · exact Or.inl (h ▸ hy)
              · exact Or.inr h
        · rw [if_neg hy]
          constructor
          · rintro (h | h)
            · rcases List.mem_cons.mp h with h | h
              · exact Or.inr (List.mem_cons.mpr (Or.inl h))
              · exact Or.inl h
            · exact Or.inr (List.mem_cons_of_mem _ h)
          · rintro (h | h)
            · exact Or.inl (List.mem_cons_of_mem _ h)
            · rcases List.mem_cons.mp h with h | h
              · exact Or.inl (List.mem_cons.mpr (Or.inl h))
              · exact Or.inr h

theorem loop_frame (now : Nat) (objs : List RemoteObject) :
    ∀ (acc : SyncLoop) (x : String), x ∉ itemIds objs →
      findRecord x (runLoop now objs acc).existing = findRecord x acc.existing ∧
      findRecord x (runLoop now objs acc).createdRecs = findRecord x acc.createdRecs := by
  induction objs with
  | nil => intro acc x _; exact ⟨rfl, rfl⟩
  | cons o rest ih =>
    intro acc x hx
    rw [runLoop_cons]
    cases hk : itemKey o with
    | none =>
      rw [processObj_skip now acc o hk]
      exact ih _ _ (by rwa [itemIds_cons_none rest hk] at hx)
    | some y =>
      have hxy : x ≠ y := by
        intro he
        exact hx (by rw [itemIds_cons_some rest hk, he]; exact List.mem_cons_self _ _)
      have hx' : x ∉ itemIds rest := fun hh =>
        hx (by rw [itemIds_cons_some rest hk]; exact List.mem_cons_of_mem _ hh)
      cases hf : findRecord y acc.existing with
      | some r =>
        rw [processObj_update now acc o y r hk hf]
        obtain ⟨h1, h2⟩ := ih _ x hx'
        rw [h1, h2]
        dsimp only
        refine ⟨?_, rfl⟩
        exact findRecord_setRecord_ne y x _ _
          (by rw [(update_spec now r o acc.products acc.nextPid).2.1, findRecord_key hf])
          hxy
      | none =>
        rw [processObj_create now acc o y hk hf]
        obtain ⟨h1, h2⟩ := ih _ x hx'
        rw [h1, h2]
        dsimp only
        refine ⟨rfl, ?_⟩
        rw [findRecord_append]
        have hnone : findRecord x [(createFromObj now y o acc.products acc.nextPid).1] = none := by
          unfold findRecord
          rw [List.find?_cons_of_neg, List.find?_nil]
          simp only [decide_eq_true_eq]
          rw [(create_spec now y o acc.products acc.nextPid).2.1]
          exact fun h => hxy h.symm
        rw [hnone, Option.or_none]

theorem mem_itemIds {objs : List RemoteObject} {o : RemoteObject} {x : String}
    (ho : o ∈ objs) (hk : itemKey o = some x) : x ∈ itemIds objs :=
  List.mem_filterMap.mpr ⟨o, ho, hk⟩

theorem findRecord_singleton_ne {x : String} {r : CatalogRecord}
    (h : r.square_id ≠ x) : findRecord x [r] = none := by
  unfold findRecord
  rw [List.find?_cons_of_neg, List.find?_nil]
  simpa using h

theorem loop_hit (now : Nat) (objs : List RemoteObject) :
    ∀ (acc : SyncLoop) (o : RemoteObject) (x : String) (r : CatalogRecord),
      (itemIds objs).Nodup → o ∈ objs → itemKey o = some x →
      findRecord x acc.existing = some r →
      ∃ r', findRecord x (runLoop now objs acc).existing = some r' ∧ matchesObj o r' ∧
        (∀ p, r.product_id = some p → r'.product_id = some p) ∧
        findRecord x (runLoop now objs acc).createdRecs =
          findRecord x acc.createdRecs := by
  induction objs with
  | nil => intro acc o x r _ ho _ _; simp at ho
  | cons o0 rest ih =>
    intro acc o x r hnd ho hk hf
    rw [runLoop_cons]
    rcases List.mem_cons.mp ho with he | ho'
    · subst he
      rw [processObj_update now acc o x r hk hf]
      have hx' : x ∉ itemIds rest := by
        rw [itemIds_cons_some rest hk] at hnd
        exact (List.nodup_cons.mp hnd).1
      obtain ⟨h1, h2⟩ := loop_frame now rest _ x hx'
      rw [h1, h2]
      dsimp only
      have hkey : (updateFromObj now r o acc.products acc.nextPid).1.square_id = x := by
        rw [(update_spec now r o acc.products acc.nextPid).2.1, findRecord_key hf]
      refine ⟨(updateFromObj now r o acc.products acc.nextPid).1, ?_, ?_, ?_, rfl⟩
      · exact findRecord_setRecord_self x _ _ hkey (by rw [hf]; rfl)
      · exact (update_spec now r o acc.products acc.nextPid).1
      · exact (update_spec now r o acc.products acc.nextPid).2.2.1
    · cases hky : itemKey o0 with
      | none =>
        rw [processObj_skip now acc o0 hky]
        exact ih acc o x r (by rwa [itemIds_cons_none rest hky] at hnd) ho' hk hf
      | some y =>
        have hnd' : (itemIds rest).Nodup := by
          rw [itemIds_cons_some rest hky] at hnd
          exact (List.nodup_cons.mp hnd).2
        have hyx : y ≠ x := by
          intro he
          subst he
          rw [itemIds_cons_some rest hky] at hnd
          exact (List.nodup_cons.mp hnd).1 (mem_itemIds ho' hk)
        cases hfy : findRecord y acc.existing with
        | some ry =>
          rw [processObj_update now acc o0 y ry hky hfy]
          have hkey : (updateFromObj now ry o0 acc.products acc.nextPid).1.square_id = y := by
            rw [(update_spec now ry o0 acc.products acc.nextPid).2.1, findRecord_key hfy]
          refine ih _ o x r hnd' ho' hk ?_
          show findRecord x
              (setRecord y (updateFromObj now ry o0 acc.products acc.nextPid).1
                acc.existing) = some r
          rw [findRecord_setRecord_ne y x _ _ hkey (fun hh => hyx hh.symm)]
          exact hf
        | none =>
          rw [processObj_create now acc o0 y hky hfy]
          have hkey : (createFromObj now y o0 acc.products acc.nextPid).1.square_id = y :=
            (create_spec now y o0 acc.products acc.nextPid).2.1
          obtain ⟨r', hr1, hr2, hr3, hr4⟩ :=
            ih { acc with
                   createdRecs := acc.createdRecs ++
                     [(createFromObj now y o0 acc.products acc.nextPid).1]
                   seen := if y ∈ acc.seen then acc.seen else y :: acc.seen
                   createdCount := acc.createdCount + 1
                   products := (createFromObj now y o0 acc.products acc.nextPid).2.1
                   nextPid := (createFromObj now y o0 acc.products acc.nextPid).2.2 }
              o x r hnd' ho' hk hf
          refine ⟨r', hr1, hr2, hr3, ?_⟩
          rw [hr4]
          dsimp only
          rw [findRecord_append, findRecord_singleton_ne (by rw [hkey]; exact hyx),
            Option.or_none]

theorem loop_miss (now : Nat) (objs : List RemoteObject) :
    ∀ (acc : SyncLoop) (o : RemoteObject) (x : String),
      (itemIds objs).Nodup → o ∈ objs → itemKey o = some x →
      findRecord x acc.existing = none → findRecord x acc.createdRecs = none →
      ∃ r', findRecord x (runLoop now objs acc).createdRecs = some r' ∧
        matchesObj o r' ∧ r'.square_id = x ∧
        findRecord x (runLoop now objs acc).existing = none := by
  induction objs with
  | nil => intro acc o x _ ho _ _ _; simp at ho
  | cons o0 rest ih =>
    intro acc o x hnd ho hk hfe hfc
    rw [runLoop_cons]
    rcases List.mem_cons.mp ho with he | ho'
    · subst he
      rw [processObj_create now acc o x hk hfe]
      have hx' : x ∉ itemIds rest := by
        rw [itemIds_cons_some rest hk] at hnd
        exact (List.nodup_cons.mp hnd).1
      obtain ⟨h1, h2⟩ := loop_frame now rest _ x hx'
      rw [h1, h2]
      dsimp only
      have hkey : (createFromObj now x o acc.products acc.nextPid).1.square_id = x :=
        (create_spec now x o acc.products acc.nextPid).2.1
      refine ⟨(createFromObj now x o acc.products acc.nextPid).1, ?_, ?_, hkey, hfe⟩
      · rw [findRecord_append, hfc, Option.or]
        unfold findRecord
        rw [List.find?_cons_of_pos _ (by simpa using hkey)]
      · exact (create_spec now x o acc.products acc.nextPid).1
    · cases hky : itemKey o0 with
      | none =>
        rw [processObj_skip now acc o0 hky]
        exact ih acc o x (by rwa [itemIds_cons_none rest hky] at hnd) ho' hk hfe hfc
      | some y =>
        have hnd' : (itemIds rest).Nodup := by
          rw [itemIds_cons_some rest hky] at hnd
          exact (List.nodup_cons.mp hnd).2
        have hyx : y ≠ x := by
          intro he
          subst he
          rw [itemIds_cons_some rest hky] at hnd
          exact (List.nodup_cons.mp hnd).1 (mem_itemIds ho' hk)
        cases hfy : findRecord y acc.existing with
        | some ry =>
          rw [processObj_update now acc o0 y ry hky hfy]
          have hkey : (updateFromObj now ry o0 acc.products acc.nextPid).1.square_id = y := by
            rw [(update_spec now ry o0 acc.products acc.nextPid).2.1, findRecord_key hfy]
          refine ih _ o x hnd' ho' hk ?_ hfc
          show findRecord x
              (setRecord y (updateFromObj now ry o0 acc.products acc.nextPid).1
                acc.existing) = none
          rw [findRecord_setRecord_ne y x _ _ hkey (fun hh => hyx hh.symm)]
          exact hfe
        | none =>
          rw [processObj_create now acc o0 y hky hfy]
          have hkey : (createFromObj now y o0 acc.products acc.nextPid).1.square_id = y :=
            (create_spec now y o0 acc.products acc.nextPid).2.1
          refine ih _ o x hnd' ho' hk hfe ?_
          show findRecord x (acc.createdRecs ++
            [(createFromObj now y o0 acc.products acc.nextPid).1]) = none
          rw [findRecord_append, hfc, findRecord_singleton_ne (by rw [hkey]; exact hyx)]
          rfl

theorem recKeys_append (l1 l2 : List CatalogRecord) :
    recKeys (l1 ++ l2) = recKeys l1 ++ recKeys l2 :=
  List.map_append _ _ _

theorem loop_created_keys (now : Nat) (objs : List RemoteObject) :
    ∀ acc : SyncLoop, (itemIds objs).Nodup →
      recKeys (runLoop now objs acc).createdRecs =
        recKeys acc.createdRecs ++
          (itemIds objs).filter (fun x => (findRecord x acc.existing).isNone) := by
  induction objs with
  | nil => intro acc _; simp [runLoop_nil, itemIds, recKeys]
  | cons o rest ih =>
    intro acc hnd
    rw [runLoop_cons]
    cases hk : itemKey o with
    | none =>
      rw [processObj_skip now acc o hk, itemIds_cons_none rest hk]
      exact ih acc (by rwa [itemIds_cons_none rest hk] at hnd)
    | some x =>
      rw [itemIds_cons_some rest hk]
      rw [itemIds_cons_some rest hk] at hnd
      have hnd' := (List.nodup_cons.mp hnd).2
      have hx' : x ∉ itemIds rest := (List.nodup_cons.mp hnd).1
      cases hf : findRecord x acc.existing with
      | some r =>
        rw [processObj_update now acc o x r hk hf]
        rw [ih _ hnd']
        dsimp only
        have hkey : (updateFromObj now r o acc.products acc.nextPid).1.square_id = x := by
          rw [(update_spec now r o acc.products acc.nextPid).2.1, findRecord_key hf]
        rw [List.filter_cons_of_neg (by simp [hf])]
        congr 1
        apply List.filter_congr
        intro y hy
        have hyx : y ≠ x := fun he => hx' (he ▸ hy)
        rw [findRecord_setRecord_ne x y _ _ hkey hyx]
      | none =>
        rw [processObj_create now acc o x hk hf]
        rw [ih _ hnd']
        dsimp only
        rw [recKeys_append]
        have hkey : (createFromObj now x o acc.products acc.nextPid).1.square_id = x :=
          (create_spec now x o acc.products acc.nextPid).2.1
        rw [List.filter_cons_of_pos (by simp [hf])]
        show recKeys acc.createdRecs ++ [(createFromObj now x o acc.products acc.nextPid).1.square_id] ++
            List.filter _ (itemIds rest) =
          recKeys acc.createdRecs ++ (x :: List.filter _ (itemIds rest))
        rw [hkey, List.append_assoc, List.singleton_append]

theorem loop_products (now : Nat) (objs : List RemoteObject) :
    ∀ acc : SyncLoop, ∃ newps,
      (runLoop now objs acc).products = acc.products ++ newps ∧
      (∀ q ∈ newps, ∃ y ∈ itemIds objs, q.square_catalog_object_id = some y) ∧
      ((itemIds objs).Nodup → ∀ y,
        newps.countP (fun q => q.square_catalog_object_id == some y) ≤ 1) := by
  induction objs with
  | nil =>
    intro acc
    exact ⟨[], by simp [runLoop_nil], by simp, fun _ _ => by simp⟩
  | cons o rest ih =>
    intro acc
    rw [runLoop_cons]
    cases hk : itemKey o with
    | none =>
      obtain ⟨newps, h1, h2, h3⟩ := ih (processObj now acc o)
      rw [processObj_skip now acc o hk] at h1 ⊢
      refine ⟨newps, h1, ?_, ?_⟩
      · intro q hq
        obtain ⟨y, hy, hqy⟩ := h2 q hq
        exact ⟨y, by rw [itemIds_cons_none rest hk]; exact hy, hqy⟩
      · intro hnd y
        exact h3 (by rwa [itemIds_cons_none rest hk] at hnd) y
    | some x =>
      have step :
          ∃ stepps, (processObj now acc o).products = acc.products ++ stepps ∧
            stepps.length ≤ 1 ∧
            ∀ q ∈ stepps, q.square_catalog_object_id = some x := by
        cases hf : findRecord x acc.existing with
        | some r =>
          rw [processObj_update now acc o x r hk hf]
          obtain ⟨newps, hp1, hp2, hp3⟩ :=
            (update_spec now r o acc.products acc.nextPid).2.2.2.2
          refine ⟨newps, hp1, hp2, ?_⟩
          intro q hq
          rw [hp3 q hq, findRecord_key hf]
        | none =>
          rw [processObj_create now acc o x hk hf]
          obtain ⟨newps, hp1, hp2, hp3⟩ :=
            (create_spec now x o acc.products acc.nextPid).2.2.2
          exact ⟨newps, hp1, hp2, hp3⟩
      obtain ⟨stepps, hs1, hs2, hs3⟩ := step
      obtain ⟨newps, h1, h2, h3⟩ := ih (processObj now acc o)
      rw [hs1] at h1
      refine ⟨stepps ++ newps, by rw [h1, List.append_assoc], ?_, ?_⟩
      · intro q hq
        rcases List.mem_append.mp hq with hq | hq
        · exact ⟨x, by rw [itemIds_cons_some rest hk]; exact List.mem_cons_self _ _,
            hs3 q hq⟩
        · obtain ⟨y, hy, hqy⟩ := h2 q hq
          exact ⟨y, by rw [itemIds_cons_some rest hk]; exact List.mem_cons_of_mem _ hy,
            hqy⟩
      · intro hnd y
        rw [itemIds_cons_some rest hk] at hnd
        have hnd' := (List.nodup_cons.mp hnd).2
        have hx' : x ∉ itemIds rest := (List.nodup_cons.mp hnd).1
        rw [List.countP_append]
        by_cases hxy : y = x
        · subst hxy
          have hz : newps.countP (fun q => q.square_catalog_object_id == some y) = 0 := by
            rw [List.countP_eq_zero]
            intro q hq
            obtain ⟨z, hz, hqz⟩ := h2 q hq
            simp only [hqz, beq_iff_eq, Option.some.injEq]
            intro he
            exact hx' (he ▸ hz)
          rw [hz]
          calc List.countP (fun q => q.square_catalog_object_id == some y) stepps + 0 ≤
              stepps.length + 0 := by
                have := List.countP_le_length
                  (p := fun q => q.square_catalog_object_id == some y) (l := stepps)
                omega
            _ ≤ 1 := by omega
        · have hz : stepps.countP (fun q => q.square_catalog_object_id == some y) = 0 := by
            rw [List.countP_eq_zero]
            intro q hq
            rw [hs3 q hq]
            simp only [beq_iff_eq, Option.some.injEq]
            exact fun he => hxy he.symm
          rw [hz]
          have := h3 hnd' y
          omega

theorem loop_nochange (now : Nat) (objs : List RemoteObject) :
    ∀ acc : SyncLoop,
      (∀ o x, o ∈ objs → itemKey o = some x →
        ∃ r, findRecord x acc.existing = some r ∧ matchesObj o r) →
      (runLoop now objs acc).existing = acc.existing ∧
      (runLoop now objs acc).createdRecs = acc.createdRecs ∧
      (runLoop now objs acc).createdCount = acc.createdCount ∧
      (runLoop now objs acc).updatedCount = acc.updatedCount ∧
      (runLoop now objs acc).products = acc.products ∧
      (runLoop now objs acc).nextPid = acc.nextPid := by
  induction objs with
  | nil => intro acc _; exact ⟨rfl, rfl, rfl, rfl, rfl, rfl⟩
  | cons o rest ih =>
    intro acc h
    rw [runLoop_cons]
    cases hk : itemKey o with
    | none =>
      rw [processObj_skip now acc o hk]
      exact ih acc (fun o' x' ho' hk' => h o' x' (List.mem_cons_of_mem _ ho') hk')
    | some x =>
      obtain ⟨r, hf, hm⟩ := h o x (List.mem_cons_self _ _) hk
      rw [processObj_update now acc o x r hk hf,
        update_no_change now r o acc.products acc.nextPid hm,
        setRecord_eq_self x r acc.existing hf]
      obtain ⟨e1, e2, e3, e4, e5, e6⟩ := ih
        { acc with
            existing := acc.existing
            seen := if x ∈ acc.seen then acc.seen else x :: acc.seen
            updatedCount := acc.updatedCount + (if (false : Bool) then 1 else 0)
            products := acc.products
            nextPid := acc.nextPid }
        (fun o' x' ho' hk' => h o' x' (List.mem_cons_of_mem _ ho') hk')
      refine ⟨e1, e2, e3, ?_, e5, e6⟩
      rw [e4]
      simp

theorem loop_existing_mem (now : Nat) (objs : List RemoteObject) :
    ∀ acc : SyncLoop, ∀ r' ∈ (runLoop now objs acc).existing,
      ∃ r ∈ acc.existing, r'.square_id = r.square_id ∧
        (r'.version = r.version ∨
          ∃ o ∈ objs, itemKey o = some r'.square_id ∧ o.oversion = some r'.version) := by
  induction objs with
  | nil => intro acc r' h; exact ⟨r', h, rfl, Or.inl rfl⟩
  | cons o0 rest ih =>
    intro acc r' h
    rw [runLoop_cons] at h
    cases hk : itemKey o0 with
    | none =>
      rw [processObj_skip now acc o0 hk] at h
      obtain ⟨r, hr, hkey, hv⟩ := ih acc r' h
      refine ⟨r, hr, hkey, ?_⟩
      rcases hv with hv | ⟨o, ho, h1, h2⟩
      · exact Or.inl hv
      · exact Or.inr ⟨o, List.mem_cons_of_mem _ ho, h1, h2⟩
    | some x =>
      cases hf : findRecord x acc.existing with
      | some r0 =>
        rw [processObj_update now acc o0 x r0 hk hf] at h
        obtain ⟨rMid, hrMid, hkey, hv⟩ := ih _ r' h
        have hu := update_spec now r0 o0 acc.products acc.nextPid
        rcases mem_setRecord hrMid with he | hmem
        · have hkx : rMid.square_id = r0.square_id := he ▸ hu.2.1
          have hrx : r'.square_id = x := by
            rw [hkey, hkx, findRecord_key hf]
          refine ⟨r0, findRecord_mem hf, by rw [hkey, hkx], ?_⟩
          rcases hv with hv | ⟨o, ho, h1, h2⟩
          · rcases he ▸ hu.2.2.2.1 with hver | ⟨v, hv1, hv2⟩
            · exact Or.inl (by rw [hv, hver])
            · refine Or.inr ⟨o0, List.mem_cons_self _ _, by rw [hrx]; exact hk, ?_⟩
              rw [hv1, hv, hv2]
          · exact Or.inr ⟨o, List.mem_cons_of_mem _ ho, h1, h2⟩
        · refine ⟨rMid, hmem, hkey, ?_⟩
          rcases hv with hv | ⟨o, ho, h1, h2⟩
          · exact Or.inl hv
          · exact Or.inr ⟨o, List.mem_cons_of_mem _ ho, h1, h2⟩
      | none =>
        rw [processObj_create now acc o0 x hk hf] at h
        obtain ⟨r, hr, hkey, hv⟩ := ih _ r' h
        refine ⟨r, hr, hkey, ?_⟩
        rcases hv with hv | ⟨o, ho, h1, h2⟩
        · exact Or.inl hv
        · exact Or.inr ⟨o, List.mem_cons_of_mem _ ho, h1, h2⟩

theorem loop_created_mem (now : Nat) (objs : List RemoteObject) :
    ∀ acc : SyncLoop, ∀ r' ∈ (runLoop now objs acc).createdRecs,
      r' ∈ acc.createdRecs ∨
        ∃ o ∈ objs, itemKey o = some r'.square_id ∧
          (o.oversion = some r'.version ∨ r'.version = 0) := by
  induction objs with
  | nil => intro acc r' h; exact Or.inl h
  | cons o0 rest ih =>
    intro acc r' h
    rw [runLoop_cons] at h
    cases hk : itemKey o0 with
    | none =>
      rw [processObj_skip now acc o0 hk] at h
      rcases ih acc r' h with h | ⟨o, ho, h1, h2⟩
      · exact Or.inl h
      · exact Or.inr ⟨o, List.mem_cons_of_mem _ ho, h1, h2⟩
    | some x =>
      cases hf : findRecord x acc.existing with
      | some r0 =>
        rw [processObj_update now acc o0 x r0 hk hf] at h
        rcases ih _ r' h with h | ⟨o, ho, h1, h2⟩
        · exact Or.inl h
        · exact Or.inr ⟨o, List.mem_cons_of_mem _ ho, h1, h2⟩
      | none =>
        rw [processObj_create now acc o0 x hk hf] at h
        rcases ih _ r' h with h | ⟨o, ho, h1, h2⟩
        · rcases List.mem_append.mp h with h | h
          · exact Or.inl h
          · have hc := create_spec now x o0 acc.products acc.nextPid
            rw [List.mem_singleton] at h
            subst h
            refine Or.inr ⟨o0, List.mem_cons_self _ _, by rw [hc.2.1]; exact hk, ?_⟩
            rcases hc.2.2.1 with h0 | ⟨v, hv1, hv2⟩
            · exact Or.inr h0
            · exact Or.inl (by rw [hv1, hv2])
        · exact Or.inr ⟨o, List.mem_cons_of_mem _ ho, h1, h2⟩

/-! ## Sync-level lemmas and the catalog claims -/


theorem sync_ok_parts (env : Option String) (L : List RemoteObject) (now : Nat)
    (st : CatalogState) :
    sync (.ok env) (.ok L) now st =
      ({ processed := (runLoop now L (initLoop st)).seen.length,
         created := (runLoop now L (initLoop st)).createdCount,
         updated := (runLoop now L (initLoop st)).updatedCount,
         deactivated := (deactivateStale now (runLoop now L (initLoop st)).seen
           (runLoop now L (initLoop st)).existing).2,
         errors := [], environment := env },
       { items := (runLoop now L (initLoop st)).existing.map
             (staleMark now (runLoop now L (initLoop st)).seen) ++
           (runLoop now L (initLoop st)).createdRecs,
         products := (runLoop now L (initLoop st)).products,
         next_product_id := (runLoop now L (initLoop st)).nextPid }, true) := by
  unfold sync
  dsimp only
  rw [deactivateStale_fst]

theorem mem_itemIds_iff {L : List RemoteObject} {x : String} :
    x ∈ itemIds L ↔ ∃ o ∈ L, itemKey o = some x := by
  unfold itemIds
  exact List.mem_filterMap

theorem mem_liveItemIds {L : List RemoteObject} {x : String} :
    x ∈ liveItemIds L ↔ ∃ o ∈ L, o.obj_is_deleted = false ∧ itemKey o = some x := by
  unfold liveItemIds
  rw [List.mem_filterMap]
  constructor
  · rintro ⟨o, ho, hko⟩
    by_cases hd : o.obj_is_deleted
    · rw [if_pos hd] at hko
      exact absurd hko (by simp)
    · rw [if_neg hd] at hko
      exact ⟨o, ho, by simpa using hd, hko⟩
  · rintro ⟨o, ho, hd, hko⟩
    exact ⟨o, ho, by rw [hd]; simpa using hko⟩

theorem sync_hit (env : Option String) (L : List RemoteObject) (now : Nat)
    (st : CatalogState) (hL : (itemIds L).Nodup)
    (o : RemoteObject) (x : String) (ho : o ∈ L) (hk : itemKey o = some x) :
    ∃ r', findRecord x (sync (.ok env) (.ok L) now st).2.1.items = some r' ∧
      matchesObj o r' ∧ r'.square_id = x := by
  rw [sync_ok_parts]
  dsimp only
  have hseen : x ∈ (runLoop now L (initLoop st)).seen := by
    rw [loop_seen]
    exact Or.inr (mem_itemIds ho hk)
  rw [findRecord_append, findRecord_map_stale]
  cases hf : findRecord x st.items with
  | some r =>
    obtain ⟨r', h1, h2, h3, h4⟩ := loop_hit now L (initLoop st) o x r hL ho hk hf
    rw [h1]
    have hkey : r'.square_id = x := findRecord_key h1
    rw [show Option.map (staleMark now (runLoop now L (initLoop st)).seen) (some r') =
      some (staleMark now (runLoop now L (initLoop st)).seen r') from rfl,
      staleMark_of_seen now _ r' (by rw [hkey]; exact hseen)]
    exact ⟨r', rfl, h2, hkey⟩
  | none =>
    obtain ⟨r', h1, h2, h3, h4⟩ := loop_miss now L (initLoop st) o x hL ho hk hf rfl
    rw [h4, h1]
    exact ⟨r', rfl, h2, h3⟩

theorem staleMark_id_of (now : Nat) (seen : List String) (r : CatalogRecord)
    (h : r.square_id ∈ seen ∨ r.is_deleted = true) : staleMark now seen r = r := by
  unfold staleMark
  rw [if_neg]
  rintro ⟨h1, h2⟩
  rcases h with h | h
  · exact h1 h
  · rw [h] at h2
    exact absurd h2 (by simp)

theorem sync_frame_absent (env : Option String) (L : List RemoteObject) (now : Nat)
    (st : CatalogState) (x : String) (hx : x ∉ itemIds L) :
    findRecord x (sync (.ok env) (.ok L) now st).2.1.items =
      (findRecord x st.items).map
        (staleMark now (runLoop now L (initLoop st)).seen) := by
  rw [sync_ok_parts]
  dsimp only
  obtain ⟨h1, h2⟩ := loop_frame now L (initLoop st) x hx
  rw [findRecord_append, findRecord_map_stale, h1, h2]
  rw [show findRecord x (initLoop st).createdRecs = none from rfl, Option.or_none]
  rfl

theorem sync_notseen (env : Option String) (L : List RemoteObject) (now : Nat)
    (st : CatalogState) (x : String) (hx : x ∉ itemIds L) :
    x ∉ (runLoop now L (initLoop st)).seen := by
  rw [loop_seen]
  rintro (h | h)
  · simp [initLoop] at h
  · exact hx h

theorem sync_stale (env : Option String) (L : List RemoteObject) (now : Nat)
    (st : CatalogState) (hSt : (recKeys st.items).Nodup)
    (r : CatalogRecord) (hr : r ∈ st.items) (hx : r.square_id ∉ itemIds L) :
    ∃ r', findRecord r.square_id (sync (.ok env) (.ok L) now st).2.1.items = some r' ∧
      r'.square_id = r.square_id ∧ r'.is_deleted = true ∧
      r'.product_id = r.product_id ∧ r'.version = r.version := by
  have hf : findRecord r.square_id st.items = some r := findRecord_of_mem_nodup hSt hr
  rw [sync_frame_absent env L now st _ hx, hf]
  refine ⟨staleMark now (runLoop now L (initLoop st)).seen r, rfl,
    staleMark_key _ _ _, ?_, staleMark_product _ _ _, staleMark_version _ _ _⟩
  exact staleMark_deleted _ _ _ (sync_notseen env L now st _ hx)

theorem sync_keys (env : Option String) (L : List RemoteObject) (now : Nat)
    (st : CatalogState) (hL : (itemIds L).Nodup) :
    recKeys (sync (.ok env) (.ok L) now st).2.1.items =
      recKeys st.items ++
        (itemIds L).filter (fun x => (findRecord x st.items).isNone) := by
  rw [sync_ok_parts]
  dsimp only
  rw [recKeys_append, recKeys_map_stale, loop_keys, loop_created_keys now L _ hL]
  rw [show recKeys (initLoop st).createdRecs = [] from rfl, List.nil_append]
  rfl

theorem sync_keys_nodup (env : Option String) (L : List RemoteObject) (now : Nat)
    (st : CatalogState) (hL : (itemIds L).Nodup) (hSt : (recKeys st.items).Nodup) :
    (recKeys (sync (.ok env) (.ok L) now st).2.1.items).Nodup := by
  rw [sync_keys env L now st hL]
  refine List.Nodup.append hSt (List.Nodup.filter _ hL) ?_
  rw [List.disjoint_left]
  intro a ha hmem
  have hp := List.of_mem_filter hmem
  rw [Option.isNone_iff_eq_none, findRecord_eq_none] at hp
  exact hp ha

theorem sync_all_settled (env : Option String) (L : List RemoteObject) (now : Nat)
    (st : CatalogState) (hL : (itemIds L).Nodup) :
    ∀ r ∈ (sync (.ok env) (.ok L) now st).2.1.items,
      r.square_id ∈ itemIds L ∨ r.is_deleted = true := by
  rw [sync_ok_parts]
  dsimp only
  intro r hr
  rcases List.mem_append.mp hr with hr | hr
  · obtain ⟨r0, hr0, hr0e⟩ := List.mem_map.mp hr
    by_cases hmem : r0.square_id ∈ itemIds L
    · left
      rw [← hr0e, staleMark_key]
      exact hmem
    · right
      rw [← hr0e]
      apply staleMark_deleted
      rw [loop_seen]
      rintro (h | h)
      · simp [initLoop] at h
      · exact hmem h
  · left
    have hkmem : r.square_id ∈ recKeys (runLoop now L (initLoop st)).createdRecs :=
      List.mem_map_of_mem _ hr
    rw [loop_created_keys now L _ hL,
      show recKeys (initLoop st).createdRecs = [] from rfl, List.nil_append] at hkmem
    exact List.mem_of_mem_filter hkmem

theorem sync_idem (env env2 : Option String) (L : List RemoteObject) (now now2 : Nat)
    (st : CatalogState) (hL : (itemIds L).Nodup) :
    sync (.ok env2) (.ok L) now2 (sync (.ok env) (.ok L) now st).2.1 =
      ({ processed :=
           (runLoop now2 L (initLoop (sync (.ok env) (.ok L) now st).2.1)).seen.length,
         created := 0, updated := 0, deactivated := 0, errors := [],
         environment := env2 },
       (sync (.ok env) (.ok L) now st).2.1, true) := by
  have hmatch : ∀ o x, o ∈ L → itemKey o = some x →
      ∃ r, findRecord x (initLoop (sync (.ok env) (.ok L) now st).2.1).existing = some r ∧
        matchesObj o r := by
    intro o x ho hk
    obtain ⟨r', h1, h2, _⟩ := sync_hit env L now st hL o x ho hk
    exact ⟨r', h1, h2⟩
  obtain ⟨e1, e2, e3, e4, e5, e6⟩ :=
    loop_nochange now2 L (initLoop (sync (.ok env) (.ok L) now st).2.1) hmatch
  have hall : ∀ r ∈ (sync (.ok env) (.ok L) now st).2.1.items,
      r.square_id ∈ (runLoop now2 L (initLoop (sync (.ok env) (.ok L) now st).2.1)).seen ∨
        r.is_deleted = true := by
    intro r hr
    rcases sync_all_settled env L now st hL r hr with h | h
    · left
      rw [loop_seen]
      exact Or.inr h
    · right
      exact h
  have hstale :
      deactivateStale now2
        (runLoop now2 L (initLoop (sync (.ok env) (.ok L) now st).2.1)).seen
        (sync (.ok env) (.ok L) now st).2.1.items =
      ((sync (.ok env) (.ok L) now st).2.1.items, 0) :=
    deactivateStale_id _ _ _ hall
  rw [sync_ok_parts env2 L now2]
  rw [e1, e2, e3, e4, e5, e6]
  have hmap : ((initLoop (sync (.ok env) (.ok L) now st).2.1).existing).map
      (staleMark now2 (runLoop now2 L (initLoop (sync (.ok env) (.ok L) now st).2.1)).seen) =
      (sync (.ok env) (.ok L) now st).2.1.items := by
    show ((sync (.ok env) (.ok L) now st).2.1.items).map _ = _
    rw [← deactivateStale_fst, hstale]
  have hdeact : (deactivateStale now2
      (runLoop now2 L (initLoop (sync (.ok env) (.ok L) now st).2.1)).seen
      ((initLoop (sync (.ok env) (.ok L) now st).2.1).existing)).2 = 0 := by
    show (deactivateStale now2 _ ((sync (.ok env) (.ok L) now st).2.1.items)).2 = 0
    rw [hstale]
  rw [hmap, hdeact]
  rw [show (initLoop (sync (.ok env) (.ok L) now st).2.1).createdRecs =
    ([] : List CatalogRecord) from rfl, List.append_nil]
  rfl

theorem sync_binding (env : Option String) (L : List RemoteObject) (now : Nat)
    (st : CatalogState) (hL : (itemIds L).Nodup) (x : String) (r : CatalogRecord)
    (p : Nat) (hf : findRecord x st.items = some r) (hp : r.product_id = some p) :
    ∃ r', findRecord x (sync (.ok env) (.ok L) now st).2.1.items = some r' ∧
      r'.product_id = some p := by
  by_cases hx : x ∈ itemIds L
  · obtain ⟨o, ho, hk⟩ := mem_itemIds_iff.mp hx
    rw [sync_ok_parts]
    dsimp only
    rw [findRecord_append, findRecord_map_stale]
    obtain ⟨r', h1, h2, h3, h4⟩ := loop_hit now L (initLoop st) o x r hL ho hk hf
    rw [h1]
    have hkey := findRecord_key h1
    have hseen : x ∈ (runLoop now L (initLoop st)).seen := by
      rw [loop_seen]
      exact Or.inr hx
    rw [show Option.map (staleMark now (runLoop now L (initLoop st)).seen) (some r') =
        some (staleMark now (runLoop now L (initLoop st)).seen r') from rfl,
      staleMark_of_seen now _ r' (by rw [hkey]; exact hseen)]
    exact ⟨r', rfl, h3 p hp⟩
  · rw [sync_frame_absent env L now st x hx, hf]
    refine ⟨staleMark now (runLoop now L (initLoop st)).seen r, rfl, ?_⟩
    rw [staleMark_product]
    exact hp

/-- Claim C3, amended (catalog convergence and sync idempotence): for a
listing with unique ITEM ids and a local table with unique keys (the
database unique constraints), after a successful `sync` the set of local
records not marked deleted corresponds exactly to the ITEM ids of the
listing *that the listing does not itself flag deleted*; local records
whose id is absent from the listing are marked deleted but never removed;
and re-running `sync` with the listing unchanged returns `updated = 0`
and `created = 0`. -/
theorem claim3_catalog_convergence (env : Option String) (L : List RemoteObject)
    (now : Nat) (st : CatalogState)
    (hL : (itemIds L).Nodup) (hSt : (recKeys st.items).Nodup) :
    (∀ x, (∃ r ∈ (sync (.ok env) (.ok L) now st).2.1.items,
        r.square_id = x ∧ r.is_deleted = false) ↔ x ∈ liveItemIds L) ∧
    (∀ r ∈ st.items, r.square_id ∉ itemIds L →
      ∃ r' ∈ (sync (.ok env) (.ok L) now st).2.1.items,
        r'.square_id = r.square_id ∧ r'.is_deleted = true) ∧
    (∀ env2 now2,
      (sync (.ok env2) (.ok L) now2 (sync (.ok env) (.ok L) now st).2.1).1.updated = 0 ∧
      (sync (.ok env2) (.ok L) now2 (sync (.ok env) (.ok L) now st).2.1).1.created = 0) := by
  refine ⟨?_, ?_, ?_⟩
  · intro x
    constructor
    · rintro ⟨r, hr, hrx, hdel⟩
      subst hrx
      have hfind : findRecord r.square_id (sync (.ok env) (.ok L) now st).2.1.items =
          some r :=
        findRecord_of_mem_nodup (sync_keys_nodup env L now st hL hSt) hr
      by_cases hx : r.square_id ∈ itemIds L
      · obtain ⟨o, ho, hk⟩ := mem_itemIds_iff.mp hx
        obtain ⟨r', h1, h2, h3⟩ := sync_hit env L now st hL o _ ho hk
        rw [hfind] at h1
        injection h1 with h1
        rw [mem_liveItemIds]
        refine ⟨o, ho, ?_, hk⟩
        rw [← h2.2.2.2.2.2.2.1, ← h1]
        exact hdel
      · rw [sync_frame_absent env L now st _ hx] at hfind
        cases hf0 : findRecord r.square_id st.items with
        | some r0 =>
          rw [hf0] at hfind
          injection hfind with hfind
          have hk0 : r0.square_id = r.square_id := findRecord_key hf0
          have : r.is_deleted = true := by
            rw [← hfind]
            apply staleMark_deleted
            rw [hk0]
            exact sync_notseen env L now st _ hx
          rw [hdel] at this
          exact absurd this (by simp)
        | none =>
          rw [hf0] at hfind
          exact absurd hfind (by simp)
    · intro hx
      obtain ⟨o, ho, hd, hk⟩ := mem_liveItemIds.mp hx
      obtain ⟨r', h1, h2, h3⟩ := sync_hit env L now st hL o x ho hk
      refine ⟨r', findRecord_mem h1, h3, ?_⟩
      rw [h2.2.2.2.2.2.2.1, hd]
  · intro r hr hx
    obtain ⟨r', h1, h2, h3, _, _⟩ := sync_stale env L now st hSt r hr hx
    exact ⟨r', findRecord_mem h1, h2, h3⟩
  · intro env2 now2
    rw [sync_idem env env2 L now now2 st hL]
    exact ⟨rfl, rfl⟩

/-- Claim C7 (product binding uniqueness): syncing the same listing twice
leaves the second state identical to the first (so every binding after the
second run equals the binding after the first and no further product is
created); one run auto-creates at most one product per external id; and a
row whose `product_id` is already set keeps exactly that binding through a
sync. -/
theorem claim7_product_binding (env env2 : Option String) (L : List RemoteObject)
    (now now2 : Nat) (st : CatalogState)
    (hL : (itemIds L).Nodup) (hSt : (recKeys st.items).Nodup) :
    (sync (.ok env2) (.ok L) now2 (sync (.ok env) (.ok L) now st).2.1).2.1 =
      (sync (.ok env) (.ok L) now st).2.1 ∧
    (∀ x, ((sync (.ok env) (.ok L) now st).2.1.products.countP
        (fun q => q.square_catalog_object_id == some x)) ≤
      (st.products.countP (fun q => q.square_catalog_object_id == some x)) + 1) ∧
    (∀ x r p, findRecord x st.items = some r → r.product_id = some p →
      ∃ r', findRecord x (sync (.ok env) (.ok L) now st).2.1.items = some r' ∧
        r'.product_id = some p) := by
  refine ⟨?_, ?_, ?_⟩
  · rw [sync_idem env env2 L now now2 st hL]
  · intro x
    have hp := loop_products now L (initLoop st)
    obtain ⟨newps, h1, h2, h3⟩ := hp
    rw [sync_ok_parts]
    dsimp only
    rw [h1]
    rw [show (initLoop st).products = st.products from rfl, List.countP_append]
    have := h3 hL x
    omega
  · intro x r p hf hp
    exact sync_binding env L now st hL x r p hf hp

/-- Claim C8, amended (version provenance): after a successful sync every
stored version is either carried over unchanged from the prior local row,
the exact value supplied by the remote listing for that id, or the
creation default 0 — local writes never fabricate any other version.  No
monotonicity is enforced: the remote value is written even when smaller
(see the counterexample). -/
theorem claim8_version_provenance (env : Option String) (L : List RemoteObject)
    (now : Nat) (st : CatalogState) :
    ∀ r' ∈ (sync (.ok env) (.ok L) now st).2.1.items,
      (∃ r ∈ st.items, r'.square_id = r.square_id ∧ r'.version = r.version) ∨
      (∃ o ∈ L, itemKey o = some r'.square_id ∧ o.oversion = some r'.version) ∨
      r'.version = 0 := by
  rw [sync_ok_parts]
  dsimp only
  intro r' hr'
  rcases List.mem_append.mp hr' with hr' | hr'
  · obtain ⟨r0, hr0, hr0e⟩ := List.mem_map.mp hr'
    have hkey : r'.square_id = r0.square_id := by
      rw [← hr0e, staleMark_key]
    have hver : r'.version = r0.version := by
      rw [← hr0e, staleMark_version]
    obtain ⟨r, hr, hk2, hv2⟩ := loop_existing_mem now L (initLoop st) r0 hr0
    rcases hv2 with hv2 | ⟨o, ho, ho1, ho2⟩
    · exact Or.inl ⟨r, hr, by rw [hkey, hk2], by rw [hver, hv2]⟩
    · exact Or.inr (Or.inl ⟨o, ho, by rw [hkey]; exact ho1, by rw [hver]; exact ho2⟩)
  · rcases loop_created_mem now L (initLoop st) r' hr' with h | ⟨o, ho, h1, h2⟩
    · exact absurd h (by simp [initLoop])
    · rcases h2 with h2 | h2
      · exact Or.inr (Or.inl ⟨o, ho, h1, h2⟩)
      · exact Or.inr (Or.inr h2)

/-- Counterexample to claim C3 as stated: a listing whose only ITEM
carries `is_deleted = true` yields a local store with no non-deleted
record, while the set of ITEM ids of the listing is `{A}` — the two sets
differ. -/
theorem claim3_catalog_convergence_cex :
    ((sync (.ok none) (.ok [catObjDel]) 0 emptyCatalogState).2.1.items.filter
        (fun r => r.is_deleted = false)).map (fun r => r.square_id) = [] ∧
    itemIds [catObjDel] = ["A"] := by
  refine ⟨by decide, by decide⟩

/-- Concrete instantiation of the amended C3: after syncing one live
ITEM into an empty store, its id is stored non-deleted. -/
theorem claim3_catalog_convergence_sample :
    ∃ r ∈ (sync (.ok none) (.ok [catObj1]) 10 emptyCatalogState).2.1.items,
      r.square_id = "ITM1" ∧ r.is_deleted = false :=
  ((claim3_catalog_convergence none [catObj1] 10 emptyCatalogState
      (by decide) (by decide)).1 "ITM1").mpr (by decide)

/-- Concrete instantiation of C7: re-syncing one item leaves the whole
state — bindings included — unchanged. -/
theorem claim7_product_binding_sample :
    (sync (.ok none) (.ok [catObj1]) 20
        (sync (.ok none) (.ok [catObj1]) 10 emptyCatalogState).2.1).2.1 =
      (sync (.ok none) (.ok [catObj1]) 10 emptyCatalogState).2.1 :=
  (claim7_product_binding none none [catObj1] 10 20 emptyCatalogState
    (by decide) (by decide)).1

/-- Counterexample to claim C8 as stated: a stored row at version 5
synced against a listing carrying version 3 ends at version 3 < 5 — an
update may write a version smaller than the stored one. -/
theorem claim8_version_monotonicity_cex :
    (sync (.ok none) (.ok [catObjV3]) 20 catStateV5).2.1.items.map
        (fun r => r.version) = [3] ∧
    catStateV5.items.map (fun r => r.version) = [5] ∧ (3 : Int) < 5 := by
  refine ⟨by decide, by decide, by decide⟩

/-- Concrete instantiation of the amended C8: the row stored by a first
sync carries exactly the remote-supplied version. -/
theorem claim8_version_provenance_sample :
    (∃ r ∈ emptyCatalogState.items,
        catRec1.square_id = r.square_id ∧ catRec1.version = r.version) ∨
    (∃ o ∈ [catObj1], itemKey o = some catRec1.square_id ∧
        o.oversion = some catRec1.version) ∨
    catRec1.version = 0 :=
  claim8_version_provenance none [catObj1] 10 emptyCatalogState catRec1 (by decide)
